import Mathlib

/-!
Verification development for the Aivora Desk local worker (src/Aivora.py).

The worker polls a remote job queue, downloads a tabular work order,
drives an external browser session once per row, and reports per-row and
overall outcomes.  We shallowly embed the parts of the program that the
specification's testable properties speak about:

* `loadSpreadsheet`   — `XCommentBot.load_spreadsheet`: column detection
  (URL-like / comment-like / status), cleaning, and filtering of already
  completed rows.  Tabular data is modelled by `Table`: a list of column
  names plus rows of cells, a cell being `Option String` (`none` models a
  missing value / NaN; pandas' `astype(str)` renders it as the string
  "nan", which `cellStr` mirrors).
* `updateExcelFile`   — `XCommentBot.update_excel_file`: the row-ledger
  write-back of a status marker.
* `roundTrip`         — the serialize + re-read cycle
  (`to_excel` via `get_updated_file_bytes` followed by `pd.read_excel`):
  column names and cell values are preserved, except that empty-string
  cells come back as missing values.
* `processSinglePost` — `XCommentBot.process_single_post`: the 3-attempt
  retry loop with exponential backoff, driven by an oracle giving each
  attempt's outcome (exception / unconfirmed submission / success).
* `processPosts`      — `XCommentBot.process_posts`: the batch runner.
* `runBot`            — `XCommentBot.run`: exit codes 0/1/2/3/4 and the
  guaranteed-cleanup (`finally`) structure, with resource events recorded.
* `workerGo`/`workerRun` — `worker_main`: the job loop, the
  exit-code → COMPLETED/FAILED mapping, and the one-shot first-run flag.

Python string primitives (`strip`, `lower`, `upper`, single-character
`replace`, substring tests) are implemented structurally over `List Char`
so that every definition evaluates by `decide`/`rfl`.
-/

/-- Whitespace characters stripped by Python's `str.strip()` (and pandas
`.str.strip()`). -/
def pyWhitespace (c : Char) : Bool :=
  c = ' ' || c = '\t' || c = '\n' || c = '\r' || c = '\x0b' || c = '\x0c'

/-- Python `str.strip()`. -/
def pyStrip (s : String) : String :=
  (((s.toList.dropWhile pyWhitespace).reverse.dropWhile pyWhitespace).reverse).asString

/-- Python `str.lower()` (ASCII fragment, which is all the bot compares). -/
def strLower (s : String) : String :=
  (s.toList.map Char.toLower).asString

/-- Python `str.upper()` (ASCII fragment). -/
def strUpper (s : String) : String :=
  (s.toList.map Char.toUpper).asString

/-- Python `str.replace(a, b)` for single-character patterns, the only form
the bot uses (`" "→"_"`, `"-"→"_"`, `"\n"→" "`, `"\r"→" "`). -/
def replaceChar (a b : Char) (s : String) : String :=
  (s.toList.map (fun c => if c = a then b else c)).asString

/-- Boolean infix test on character lists. -/
def listInfixOf (pat : List Char) : List Char → Bool
  | [] => pat.isPrefixOf []
  | c :: cs => pat.isPrefixOf (c :: cs) || listInfixOf pat cs

/-- Python's `sub in s` substring test. -/
def strContains (s sub : String) : Bool :=
  listInfixOf sub.toList s.toList

/-- Python's `s.startswith(sub)`. -/
def strStartsWith (s sub : String) : Bool :=
  sub.toList.isPrefixOf s.toList

/-- One spreadsheet cell.  `none` is a missing value (pandas NaN). -/
abbrev Cell := Option String

/-- `str(cell)` as pandas `astype(str)` produces it: a missing value
stringifies to `"nan"`. -/
def cellStr (c : Cell) : String :=
  match c with
  | none => "nan"
  | some s => s

/-- A tabular dataset: column names plus rows of cells (rows are indexed by
their position, mirroring the pandas `RangeIndex` that `iterrows` and
`loc[row_index, ...]` use). -/
structure Table where
  cols : List String
  rows : List (List Cell)
deriving DecidableEq, Repr

/-- Positions of every column with the given name, in order — pandas
label-based lookup returns all of them (a duplicated label yields a
`DataFrame`, on which the bot's `.str` accessors raise). -/
def colPositions (cols : List String) (name : String) : List Nat :=
  (List.range cols.length).filter (fun i => cols.getD i "" = name)

/-- `XCommentBot._normalize`: strip, lowercase, and replace spaces and
hyphens with underscores. -/
def normalizeCol (col : String) : String :=
  replaceChar '-' '_' (replaceChar ' ' '_' (strLower (pyStrip col)))

/-- Which logical column `_detect_column` is asked for. -/
inductive Want
  | url
  | comment
deriving DecidableEq, Repr

/-- The URL-column candidate test of `_detect_column` (`want == "url"`). -/
def urlCandidate (norm : String) : Bool :=
  ["url", "posturl", "tweet_url", "link", "post_link"].contains norm ||
    (strContains norm "url" &&
      (strContains norm "post" || strContains norm "tweet" || norm == "url"))

/-- The comment-column candidate test of `_detect_column`
(`want == "comment"`). -/
def commentCandidate (norm : String) : Bool :=
  ["generated_comment", "comment", "reply", "comment_text", "generatedcomment"].contains norm ||
    (strContains norm "comment" || strContains norm "reply" ||
      (strContains norm "generated" && strContains norm "comment"))

/-- `XCommentBot._detect_column`: the first raw column whose normalized name
passes the candidate test for `w`. -/
def detectColumn (normCols rawCols : List String) (w : Want) : Option String :=
  (((normCols.zip rawCols).filter
      (fun p => match w with
        | Want.url => urlCandidate p.1
        | Want.comment => commentCandidate p.1)).head?).map (fun p => p.2)

/-- The status-column alias set of `load_spreadsheet`. -/
def statusCandidates : List String :=
  ["commented_(y/n)", "commented", "done", "posted", "status"]

/-- Status-column detection: first raw column whose normalized name is an
alias, else the canonical default created when absent. -/
def detectStatusCol (normCols rawCols : List String) : String :=
  ((((normCols.zip rawCols).filter (fun p => statusCandidates.contains p.1)).head?).map
    (fun p => p.2)).getD "Commented (Y/N)"

/-- The completion markers recognised by `load_spreadsheet`:
`.astype(str).str.upper().str.strip().isin(["Y","YES","TRUE","1"])`. -/
def isCompleted (s : String) : Bool :=
  ["Y", "YES", "TRUE", "1"].contains (pyStrip (strUpper s))

/-- The transformation applied to the URL column:
`df[url_col].astype(str).str.strip()`. -/
def urlTransform (s : String) : String := pyStrip s

/-- The transformation applied to the comment column:
`.astype(str).str.replace("\n"," ").str.replace("\r"," ").str.strip()`. -/
def commentTransform (s : String) : String :=
  pyStrip (replaceChar '\r' ' ' (replaceChar '\n' ' ' s))

/-- `unique position of a column label`: label-based single-column access.
A missing or duplicated label makes the bot's subsequent `.str` accessor
raise, which we model as an error. -/
def uniquePos (cols : List String) (name : String) : Except String Nat :=
  match colPositions cols name with
  | [p] => Except.ok p
  | _ => Except.error ("ambiguous column label: " ++ name)

/-- One step of the `Unnamed` column drop
(`df.loc[:, [c for c in df.columns if not (c.startswith("Unnamed") and
pd.isna(df[c]).all())]]`): a non-`Unnamed` label is kept; an `Unnamed`
label is kept unless its (unique) column is entirely missing values; a
duplicated `Unnamed` label makes the Python truth test raise. -/
def keepDecide (cols : List String) (rows : List (List Cell)) (c : String) :
    Except String Bool :=
  if strStartsWith c "Unnamed" then
    match colPositions cols c with
    | [p] => Except.ok (!(rows.all (fun r => (r.getD p none).isNone)))
    | _ => Except.error ("ambiguous truth value for column " ++ c)
  else
    Except.ok true

/-- Effectful filter used for the `Unnamed` column comprehension. -/
def filterME (f : String → Except String Bool) : List String → Except String (List String)
  | [] => Except.ok []
  | c :: cs =>
    match f c, filterME f cs with
    | Except.error e, _ => Except.error e
    | Except.ok _, Except.error e => Except.error e
    | Except.ok b, Except.ok rest => Except.ok (if b then c :: rest else rest)

/-- Column names after `df.columns = [str(col).strip() for col in df.columns]`. -/
def strippedCols (t : Table) : List String := t.cols.map pyStrip

/-- Column positions selected by `df.loc[:, keep]` (each label in `keep`
expands to every matching position, as pandas label selection does). -/
def possOf (t : Table) (keep : List String) : List Nat :=
  keep.flatMap (colPositions (strippedCols t))

/-- The working DataFrame's column names after the strip + `Unnamed` drop. -/
def wcolsOf (t : Table) (keep : List String) : List String :=
  (possOf t keep).map (fun i => (strippedCols t).getD i "")

/-- One row of the filtered WorkSet returned by `load_spreadsheet`: the
original row index (pandas keeps original index labels through filtering),
the selected raw cells, and the standardized `URL` /
`generated_comment` string columns. -/
structure WRow where
  idx : Nat
  cells : List Cell
  url : String
  comment : String
deriving DecidableEq, Repr

/-- Build the working row for original row `r` at index `j`, given the
selected column positions and the unique positions of the detected URL and
comment columns. -/
def wrowOf (poss : List Nat) (iu ic : Nat) (j : Nat) (r : List Cell) : WRow :=
  let cells := poss.map (fun i => r.getD i none)
  { idx := j
    cells := cells
    url := urlTransform (cellStr (cells.getD iu none))
    comment := commentTransform (cellStr (cells.getD ic none)) }

/-- The row-cleaning mask of `load_spreadsheet` (the preceding
`dropna(subset=["URL","generated_comment"])` is a no-op because both
columns were just produced by `astype(str)`):
nonempty URL and comment whose lowercasings are not `"nan"`. -/
def cleanKeep (w : WRow) : Bool :=
  decide (0 < w.url.length) && decide (0 < w.comment.length) &&
    !(strLower w.url == "nan") && !(strLower w.comment == "nan")

/-- The already-commented filter: when a status column is present in the
working DataFrame (at unique position `p`), drop rows whose status cell is
a completion marker. -/
def statusKeep (statusPos : Option Nat) (w : WRow) : Bool :=
  match statusPos with
  | some p => !(isCompleted (cellStr (w.cells.getD p none)))
  | none => true

/-- `enumFrom n l` pairs each element of `l` with its index starting at `n`
(`enumerate` / the pandas `RangeIndex`). -/
def enumFrom (n : Nat) : List (List Cell) → List (Nat × List Cell)
  | [] => []
  | r :: rs => (n, r) :: enumFrom (n + 1) rs

/-- Ensure a column exists, creating it filled with empty strings when
absent (`self.original_df[status_col] = ""`). -/
def ensureCol (t : Table) (name : String) : Table :=
  if t.cols.contains name then t
  else { cols := t.cols ++ [name], rows := t.rows.map (fun r => r ++ [some ""]) }

/-- Message naming each missing logical column, as raised by
`load_spreadsheet` when detection fails. -/
def urlMissingDesc : String := "URL-like column (e.g., postUrl/url/link)"

/-- Description used for a missing comment column. -/
def commentMissingDesc : String := "comment-like column (e.g., Generated comment / comment / reply)"

/-- `f"Could not detect required columns: {', '.join(missing)}"`. -/
def schemaErrorMsg (uo co : Option String) : String :=
  "Could not detect required columns: " ++
    String.intercalate ", "
      ((if uo.isNone then [urlMissingDesc] else []) ++
        (if co.isNone then [commentMissingDesc] else []))

/-- Everything `load_spreadsheet` leaves behind: the filtered WorkSet, the
retained full copy (`self.original_df`, with the status column ensured),
and the resolved status column name (`self._status_col_name`).  The
remaining fields are bookkeeping of the working DataFrame's structure (its
column names, the positions selected from the original table, and the
positions of the standardized columns), which the returned DataFrame
carries implicitly. -/
structure LoadResult where
  workset : List WRow
  original : Table
  statusColName : String
  wcols : List String
  poss : List Nat
  urlPos : Nat
  commentPos : Nat
  statusPos : Option Nat
deriving DecidableEq, Repr

/-- `XCommentBot.load_spreadsheet`, stage by stage: keep a full copy, strip
column names, drop empty `Unnamed` columns, detect the URL and comment
columns (raising a schema error naming each missing one), standardize the
two columns (a duplicated label raises), detect or create the status
column, clean empty/`nan` rows, and drop rows already marked complete. -/
def loadSpreadsheet (t : Table) : Except String LoadResult :=
  let cols1 := strippedCols t
  match filterME (keepDecide cols1 t.rows) cols1 with
  | Except.error e => Except.error e
  | Except.ok keep =>
    let poss := possOf t keep
    let wcols := wcolsOf t keep
    let normCols := wcols.map normalizeCol
    match detectColumn normCols wcols Want.url, detectColumn normCols wcols Want.comment with
    | some urlCol, some commentCol =>
      (match uniquePos wcols urlCol, uniquePos wcols commentCol with
       | Except.ok iu, Except.ok ic =>
         let statusCol := detectStatusCol normCols wcols
         (match (if wcols.contains statusCol
                 then (uniquePos wcols statusCol).map some
                 else Except.ok none) with
          | Except.error e => Except.error e
          | Except.ok statusPos =>
            Except.ok
              { workset :=
                  ((enumFrom 0 t.rows).map (fun jr => wrowOf poss iu ic jr.1 jr.2)).filter
                    (fun w => cleanKeep w && statusKeep statusPos w)
                original := ensureCol t statusCol
                statusColName := statusCol
                wcols := wcols
                poss := poss
                urlPos := iu
                commentPos := ic
                statusPos := statusPos })
       | Except.error e, _ => Except.error e
       | _, Except.error e => Except.error e)
    | uo, co => Except.error (schemaErrorMsg uo co)

/-- Update row `j` of a row list by `f`, leaving other rows alone. -/
def updateRows : List (List Cell) → Nat → (List Cell → List Cell) → List (List Cell)
  | [], _, _ => []
  | r :: rs, 0, f => f r :: rs
  | r :: rs, j + 1, f => r :: updateRows rs j f

/-- `XCommentBot.update_excel_file`: ensure the status column exists, then
set it at `rowIndex` (pandas `loc` writes every position carrying the
label); an out-of-range index is a logged no-op. -/
def updateExcelFile (t : Table) (statusName : String) (rowIndex : Nat) (status : String) :
    Table :=
  let t1 :=
    if t.cols.contains statusName then t
    else { cols := t.cols ++ [statusName], rows := t.rows.map (fun r => r ++ [some ""]) }
  if rowIndex < t1.rows.length then
    { t1 with
        rows := updateRows t1.rows rowIndex
          (fun r => (colPositions t1.cols statusName).foldl (fun r' p => r'.set p (some status)) r) }
  else t1

/-- What one cell survives of serialization (`to_excel`) followed by
re-reading: values are preserved, but an empty-string cell comes back as a
missing value. -/
def roundTripCell (c : Cell) : Cell :=
  match c with
  | some s => if s = "" then none else some s
  | none => none

/-- Serialization (`get_updated_file_bytes`, `to_excel(index=False)`)
followed by re-reading: column names survive, and cells survive up to
`roundTripCell`. -/
def roundTrip (t : Table) : Table :=
  { cols := t.cols
    rows := t.rows.map (fun r => r.map roundTripCell) }

/-- Outcome of one attempt inside `process_single_post`: the execution
context raised (with the exception's text), `post_comment` returned
`False`, or `post_comment` returned `True`. -/
inductive AttemptOutcome
  | raises (msg : String)
  | notConfirmed
  | confirmed
deriving DecidableEq, Repr

/-- Whether an attempt outcome counts as success (`post_comment` true). -/
def AttemptOutcome.isConfirmed : AttemptOutcome → Bool
  | confirmed => true
  | _ => false

/-- The result dict built by `process_single_post` (the timestamp field is
wall-clock metadata and is elided). -/
structure OutcomeRecord where
  post_number : Nat
  original_index : Nat
  url : String
  comment : String
  status : String
  message : String
deriving DecidableEq, Repr

/-- Modelled from the spec: the retry loop of `process_single_post`.  The
function's committed body is not valid Python — the `if attempt <
max_retries - 1:` at Aivora.py line 587 sits at the same indentation as
`try:`/`except:` and so terminates the try statement, leaving the
`finally:` at line 592 orphaned (a SyntaxError: the module cannot be
parsed or run) — so the loop's semantics is taken from the spec's Item
Processor contract (section 4.3): up to `max_retries = 3` attempts, an
attempt fails on any exception from the execution context or a returned
"submission not confirmed" result, exponential backoff (`2 ** attempt`
time units: 1 then 2) between attempts, and success breaks out
immediately with no further attempts and no backoff sleep.  `remaining`
counts loop iterations left, `attempt` is the current 0-based attempt
number, and `sleeps` accumulates the backoff sleeps taken. -/
def attemptLoop (oracle : Nat → AttemptOutcome) :
    Nat → Nat → OutcomeRecord → List Nat → OutcomeRecord × Nat × List Nat
  | 0, attempt, res, sleeps => (res, attempt, sleeps)
  | n + 1, attempt, res, sleeps =>
    match oracle attempt with
    | AttemptOutcome.confirmed =>
      ({ res with status := "success", message := "Comment posted successfully" },
        attempt + 1, sleeps)
    | AttemptOutcome.notConfirmed =>
      let res' := { res with
        message := "Failed to post comment (attempt " ++ toString (attempt + 1) ++ ")" }
      if attempt < 2 then attemptLoop oracle n (attempt + 1) res' (sleeps ++ [2 ^ attempt])
      else attemptLoop oracle n (attempt + 1) res' sleeps
    | AttemptOutcome.raises msg =>
      let res' := { res with
        message := "Error on attempt " ++ toString (attempt + 1) ++ ": " ++ msg }
      if attempt < 2 then attemptLoop oracle n (attempt + 1) res' (sleeps ++ [2 ^ attempt])
      else attemptLoop oracle n (attempt + 1) res' sleeps

/-- Modelled from the spec: `XCommentBot.process_single_post`, whose
committed body is a SyntaxError (see `attemptLoop`).  Following the spec's
Item Processor contract: build the initial failed record (comment preview
truncated to 50 characters), run up to `max_retries = 3` attempts via
`attemptLoop`, and return the final record together with the number of
attempts made and the backoff sleeps taken; every failure path is
converted to a failed record.  The per-attempt execution-context teardown
touches only browser state and is elided. -/
def processSinglePost (oracle : Nat → AttemptOutcome) (url comment : String)
    (postNumber originalIndex : Nat) : OutcomeRecord × Nat × List Nat :=
  let init : OutcomeRecord :=
    { post_number := postNumber
      original_index := originalIndex
      url := url
      comment := if 50 < comment.length then comment.take 50 ++ "..." else comment
      status := "failed"
      message := "" }
  attemptLoop oracle 3 0 init []

/-- The marker written back to the status column for one processed row:
`"Y" if result["status"] == "success" else "N"`. -/
def statusMarker (s : String) : String :=
  if s = "success" then "Y" else "N"

/-- The body of `process_posts`: process each WorkSet row in order with its
per-item attempt oracle, append the outcome record, and mark the row in
the ledger.  `i` is the 0-based enumeration counter (`current_post_idx`);
the randomized inter-item pacing sleep affects timing only and is
elided. -/
def processPostsGo (att : Nat → Nat → AttemptOutcome) (statusName : String) :
    Nat → List WRow → Table → List OutcomeRecord × Table
  | _, [], led => ([], led)
  | i, w :: rest, led =>
    let pr := processSinglePost (att i) w.url w.comment (i + 1) w.idx
    let led' := updateExcelFile led statusName w.idx (statusMarker pr.1.status)
    let tail := processPostsGo att statusName (i + 1) rest led'
    (pr.1 :: tail.1, tail.2)

/-- `XCommentBot.process_posts`: iterate the filtered WorkSet in dataset
order (an empty WorkSet returns immediately with no side effects). -/
def processPosts (att : Nat → Nat → AttemptOutcome) (ws : List WRow) (ledger : Table)
    (statusName : String) : List OutcomeRecord × Table :=
  processPostsGo att statusName 0 ws ledger

/-- Resource events recorded while `run` executes: entry into `cleanup()`
and the `driver.quit()` call it makes when a driver exists. -/
inductive Event
  | cleanupCall
  | driverQuit
deriving DecidableEq, Repr

/-- The external outcomes one job run depends on: whether
`setup_chrome_driver` succeeds (otherwise it raises before `self.driver`
is assigned), whether `wait_for_manual_login` confirms the login, and the
per-item per-attempt outcomes. -/
structure RunEnv where
  setupOk : Bool
  loginOk : Bool
  att : Nat → Nat → AttemptOutcome

/-- What `XCommentBot.run` leaves behind: its exit code, the accumulated
`self.results`, the ledger (`self.original_df`) if one was produced, and
the resource events. -/
structure RunResult where
  exitCode : Nat
  results : List OutcomeRecord
  ledger : Option Table
  events : List Event

/-- `XCommentBot.run`: setup, login, load, process, report — every branch,
including the exception paths, funnels through the `finally: self.cleanup()`
which quits the driver exactly when one was created.  Exit codes: 0 at
least one success, 1 fatal error (setup raised / load raised), 2 login
failed, 3 zero successes, 4 empty WorkSet. -/
def runBot (env : RunEnv) (t : Table) : RunResult :=
  if !env.setupOk then
    { exitCode := 1, results := [], ledger := none, events := [Event.cleanupCall] }
  else if !env.loginOk then
    { exitCode := 2, results := [], ledger := none,
      events := [Event.cleanupCall, Event.driverQuit] }
  else
    match loadSpreadsheet t with
    | Except.error _ =>
      { exitCode := 1, results := [], ledger := none,
        events := [Event.cleanupCall, Event.driverQuit] }
    | Except.ok res =>
      if res.workset.length = 0 then
        { exitCode := 4, results := [], ledger := some res.original,
          events := [Event.cleanupCall, Event.driverQuit] }
      else
        let pr := processPosts env.att res.workset res.original res.statusColName
        let successful := (pr.1.filter (fun r => r.status == "success")).length
        { exitCode := if 0 < successful then 0 else 3
          results := pr.1
          ledger := some pr.2
          events := [Event.cleanupCall, Event.driverQuit] }

/-- The exit-code → job-status mapping in `worker_main`
(`COMPLETED` for 0 and for 4, `FAILED` otherwise). -/
def finalStatusOfExit (c : Nat) : String :=
  if c = 0 then "COMPLETED" else if c = 4 then "COMPLETED" else "FAILED"

/-- One pending job as the worker sees it: whether the file download
succeeds, the run environment and parsed table, and whether an exception
outside `bot.run` (which catches its own) crashes the worker after the run
but before the first-run marker is touched. -/
structure JobEnv where
  downloadOk : Bool
  renv : RunEnv
  table : Table
  crashes : Bool

/-- Trace entry for one polled job: download failure (reported FAILED and
the loop continues), a crash that kills the loop, or a completed job cycle
recording the flag-file state when the job started, the headless mode the
bot was run with, and the final status reported. -/
inductive JobTrace
  | downloadFailed
  | crashed
  | ran (flagAtStart : Bool) (headless : Bool) (finalStatus : String)
deriving DecidableEq, Repr

/-- The job loop of `worker_main`.  `isFirstRun` is read from the flag file
once, before the loop; `flag` is the current state of the marker file. -/
def workerGo (isFirstRun : Bool) : Bool → List JobEnv → List JobTrace × Bool
  | flag, [] => ([], flag)
  | flag, j :: rest =>
    if !j.downloadOk then
      let tail := workerGo isFirstRun flag rest
      (JobTrace.downloadFailed :: tail.1, tail.2)
    else
      let headless := !isFirstRun
      let r := runBot j.renv j.table
      let fs := finalStatusOfExit r.exitCode
      if j.crashes then ([JobTrace.crashed], flag)
      else
        let flag' := flag || (isFirstRun && (fs == "COMPLETED" || fs == "FAILED"))
        let tail := workerGo isFirstRun flag' rest
        (JobTrace.ran flag headless fs :: tail.1, tail.2)

/-- `worker_main`: read the first-run flag file once at startup
(`is_first_run = not IS_FIRST_RUN_FILE.exists()`), then process the queue;
returns the trace and the final flag-file state. -/
def workerRun (flag0 : Bool) (jobs : List JobEnv) : List JobTrace × Bool :=
  workerGo (!flag0) flag0 jobs

/-- C3: the committed `process_single_post` (Aivora.py 555-599) cannot
execute at all — its orphaned `finally:` at line 592 is a SyntaxError, so
the module fails to parse and no attempt is ever made, contradicting the
claimed retry behaviour; the claim itself states the spec's evident
intent, which this theorem proves of the spec-modelled Item Processor:
for every item in which every attempt fails (the execution context raises
or the submission is reported not confirmed), exactly 3 attempts are
made, with sleeps of 1 time unit between attempts 1 and 2 and 2 time
units between attempts 2 and 3, and the OutcomeRecord has status failed;
if some attempt succeeds, no further attempts are made. -/
theorem retry_policy_three_attempts (oracle : Nat → AttemptOutcome) (url comment : String)
    (pn oi : Nat) :
    ((∀ i, i < 3 → oracle i ≠ AttemptOutcome.confirmed) →
      (processSinglePost oracle url comment pn oi).2.1 = 3 ∧
      (processSinglePost oracle url comment pn oi).2.2 = [1, 2] ∧
      (processSinglePost oracle url comment pn oi).1.status = "failed") ∧
    (∀ k, k < 3 → oracle k = AttemptOutcome.confirmed →
      (∀ i, i < k → oracle i ≠ AttemptOutcome.confirmed) →
      (processSinglePost oracle url comment pn oi).2.1 = k + 1 ∧
      (processSinglePost oracle url comment pn oi).1.status = "success") := by
  constructor
  · intro h
    have h0 := h 0 (by omega)
    have h1 := h 1 (by omega)
    have h2 := h 2 (by omega)
    rcases ho0 : oracle 0 with m0 | _ | _ <;>
      rcases ho1 : oracle 1 with m1 | _ | _ <;>
        rcases ho2 : oracle 2 with m2 | _ | _ <;>
          first
          | exact absurd ho0 h0
          | exact absurd ho1 h1
          | exact absurd ho2 h2
          | simp [processSinglePost, attemptLoop, ho0, ho1, ho2]
  · intro k hk hsucc hprev
    interval_cases k
    · simp [processSinglePost, attemptLoop, hsucc]
    · have h0 := hprev 0 (by omega)
      rcases ho0 : oracle 0 with m0 | _ | _ <;>
        first
        | exact absurd ho0 h0
        | simp [processSinglePost, attemptLoop, ho0, hsucc]
    · have h0 := hprev 0 (by omega)
      have h1 := hprev 1 (by omega)
      rcases ho0 : oracle 0 with m0 | _ | _ <;>
        rcases ho1 : oracle 1 with m1 | _ | _ <;>
          first
          | exact absurd ho0 h0
          | exact absurd ho1 h1
          | simp [processSinglePost, attemptLoop, ho0, ho1, hsucc]

/-- Witness for the retry-policy theorem at a concrete all-failing oracle. -/
theorem retry_policy_three_attempts_witness :
    (∀ i, i < 3 → (fun _ => AttemptOutcome.notConfirmed) i ≠ AttemptOutcome.confirmed) ∧
    ((processSinglePost (fun _ => AttemptOutcome.notConfirmed) "u" "c" 1 0).2.1 = 3 ∧
      (processSinglePost (fun _ => AttemptOutcome.notConfirmed) "u" "c" 1 0).2.2 = [1, 2] ∧
      (processSinglePost (fun _ => AttemptOutcome.notConfirmed) "u" "c" 1 0).1.status = "failed") :=
  ⟨fun _ _ => by simp,
    (retry_policy_three_attempts (fun _ => AttemptOutcome.notConfirmed) "u" "c" 1 0).1
      (fun _ _ => by simp)⟩

/-- The record returned for one item is always marked success or failed. -/
lemma attemptLoop_status_cases (oracle : Nat → AttemptOutcome) :
    ∀ n attempt res sleeps, res.status = "failed" →
      ((attemptLoop oracle n attempt res sleeps).1.status = "success" ∨
        (attemptLoop oracle n attempt res sleeps).1.status = "failed") := by
  intro n
  induction n with
  | zero => intro attempt res sleeps hres; right; simpa [attemptLoop] using hres
  | succ m ih =>
    intro attempt res sleeps hres
    rcases ho : oracle attempt with msg | _ | _
    · by_cases hlt : attempt < 2 <;> simp [attemptLoop, ho, hlt] <;> exact ih _ _ _ hres
    · by_cases hlt : attempt < 2 <;> simp [attemptLoop, ho, hlt] <;> exact ih _ _ _ hres
    · left; simp [attemptLoop, ho]

/-- The retry loop never changes the item-identifying fields of the
record. -/
lemma attemptLoop_fixed_fields (oracle : Nat → AttemptOutcome) :
    ∀ n attempt res sleeps,
      (attemptLoop oracle n attempt res sleeps).1.original_index = res.original_index ∧
      (attemptLoop oracle n attempt res sleeps).1.post_number = res.post_number := by
  intro n
  induction n with
  | zero => intro attempt res sleeps; simp [attemptLoop]
  | succ m ih =>
    intro attempt res sleeps
    rcases ho : oracle attempt with msg | _ | _
    · by_cases hlt : attempt < 2 <;> simp [attemptLoop, ho, hlt] <;> exact ih _ _ _
    · by_cases hlt : attempt < 2 <;> simp [attemptLoop, ho, hlt] <;> exact ih _ _ _
    · simp [attemptLoop, ho]

/-- The status of a processed item is success or failed. -/
lemma processSinglePost_status_cases (oracle : Nat → AttemptOutcome) (url comment : String)
    (pn oi : Nat) :
    (processSinglePost oracle url comment pn oi).1.status = "success" ∨
      (processSinglePost oracle url comment pn oi).1.status = "failed" :=
  attemptLoop_status_cases oracle 3 0 _ [] rfl

/-- A processed item's record carries the item's row index and ordinal. -/
lemma processSinglePost_fixed_fields (oracle : Nat → AttemptOutcome) (url comment : String)
    (pn oi : Nat) :
    (processSinglePost oracle url comment pn oi).1.original_index = oi ∧
      (processSinglePost oracle url comment pn oi).1.post_number = pn :=
  attemptLoop_fixed_fields oracle 3 0 _ []

/-- Elements of the record list produced by the batch-runner loop: one
record per WorkSet row, in order, each being the processed outcome of the
corresponding row. -/
lemma processPostsGo_getElem? (att : Nat → Nat → AttemptOutcome) (sn : String) :
    ∀ (ws : List WRow) (i0 : Nat) (led : Table) (k : Nat) (e : WRow),
      ws[k]? = some e →
      (processPostsGo att sn i0 ws led).1[k]? =
        some (processSinglePost (att (i0 + k)) e.url e.comment (i0 + k + 1) e.idx).1 := by
  intro ws
  induction ws with
  | nil => intro i0 led k e he; simp at he
  | cons w rest ih =>
    intro i0 led k e he
    cases k with
    | zero =>
      simp at he
      subst he
      simp [processPostsGo]
    | succ m =>
      simp at he
      have harith : i0 + (m + 1) = i0 + 1 + m := by omega
      simp [processPostsGo]
      rw [harith]
      exact ih (i0 + 1) _ m e he

/-- The batch runner appends exactly one record per WorkSet row. -/
lemma processPostsGo_length (att : Nat → Nat → AttemptOutcome) (sn : String) :
    ∀ (ws : List WRow) (i0 : Nat) (led : Table),
      (processPostsGo att sn i0 ws led).1.length = ws.length := by
  intro ws
  induction ws with
  | nil => intro i0 led; simp [processPostsGo]
  | cons w rest ih => intro i0 led; simp [processPostsGo, ih]

/-- C4: the claim's central premise — the Item Processor never raises past
its own boundary — is the contract of `process_single_post`, whose
committed body is a SyntaxError (orphaned `finally:` at Aivora.py line
592), so the program cannot run and no item is ever attempted; the claim
states the spec's evident intent, which this theorem proves of the
spec-modelled batch: for every WorkSet, the Batch Runner attempts every
item in dataset order and appends exactly one OutcomeRecord per item, and
the Item Processor is total (all failure paths become a failed record),
so no single item's failure aborts the batch or prevents later items from
being attempted. -/
theorem batch_never_aborted (att : Nat → Nat → AttemptOutcome) (ws : List WRow)
    (ledger : Table) (sn : String) :
    ((processPosts att ws ledger sn).1.length = ws.length) ∧
    (∀ k e, ws[k]? = some e →
      ∃ r0, (processPosts att ws ledger sn).1[k]? = some r0 ∧
        r0.original_index = e.idx ∧ r0.post_number = k + 1 ∧
        (r0.status = "success" ∨ r0.status = "failed")) := by
  refine ⟨processPostsGo_length att sn ws 0 ledger, ?_⟩
  intro k e he
  refine ⟨(processSinglePost (att (0 + k)) e.url e.comment (0 + k + 1) e.idx).1,
    processPostsGo_getElem? att sn ws 0 ledger k e he, ?_, ?_, ?_⟩
  · exact (processSinglePost_fixed_fields _ _ _ _ _).1
  · rw [(processSinglePost_fixed_fields _ _ _ _ _).2]; omega
  · exact processSinglePost_status_cases _ _ _ _ _

/-- Witness: the batch runner on a concrete two-row WorkSet. -/
theorem batch_never_aborted_witness :
    (([(⟨5, [], "u1", "c1"⟩ : WRow), ⟨9, [], "u2", "c2"⟩])[1]? = some ⟨9, [], "u2", "c2"⟩) ∧
    (∃ r0, (processPosts (fun _ _ => AttemptOutcome.notConfirmed)
        [⟨5, [], "u1", "c1"⟩, ⟨9, [], "u2", "c2"⟩] ⟨[], []⟩ "status").1[1]? = some r0 ∧
      r0.original_index = 9 ∧ r0.post_number = 2 ∧
      (r0.status = "success" ∨ r0.status = "failed")) :=
  ⟨rfl,
    (batch_never_aborted (fun _ _ => AttemptOutcome.notConfirmed)
      [⟨5, [], "u1", "c1"⟩, ⟨9, [], "u2", "c2"⟩] ⟨[], []⟩ "status").2 1
      ⟨9, [], "u2", "c2"⟩ rfl⟩

/-- C8: for every job, regardless of how the run ends (success, batch
failure, login failure, schema failure, or an exception in the run), the
`finally` block runs `cleanup()` exactly once, and the browser driver is
quit exactly once whenever it was created (when setup itself raises, no
driver exists to quit). -/
theorem cleanup_runs_exactly_once (env : RunEnv) (t : Table) :
    ((runBot env t).events.count Event.cleanupCall = 1) ∧
    (env.setupOk = true → (runBot env t).events.count Event.driverQuit = 1) ∧
    (env.setupOk = false → (runBot env t).events.count Event.driverQuit = 0) := by
  rcases hs : env.setupOk
  · simp [runBot, hs, List.count_cons]
  · rcases hl : env.loginOk
    · simp [runBot, hs, hl, List.count_cons]
    · rcases hload : loadSpreadsheet t with e | res
      · simp [runBot, hs, hl, hload, List.count_cons]
      · by_cases hws : res.workset.length = 0 <;>
          simp [runBot, hs, hl, hload, hws, List.count_cons]

/-- Witness: cleanup accounting for a concrete environment whose setup
succeeds. -/
theorem cleanup_runs_exactly_once_witness :
    ((runBot ⟨true, false, fun _ _ => AttemptOutcome.notConfirmed⟩
        ⟨[], []⟩).events.count Event.cleanupCall = 1) ∧
    ((⟨true, false, fun _ _ => AttemptOutcome.notConfirmed⟩ : RunEnv).setupOk = true) ∧
    ((runBot ⟨true, false, fun _ _ => AttemptOutcome.notConfirmed⟩
        ⟨[], []⟩).events.count Event.driverQuit = 1) :=
  ⟨(cleanup_runs_exactly_once ⟨true, false, fun _ _ => AttemptOutcome.notConfirmed⟩ ⟨[], []⟩).1,
    rfl,
    (cleanup_runs_exactly_once ⟨true, false, fun _ _ => AttemptOutcome.notConfirmed⟩ ⟨[], []⟩).2.1
      rfl⟩

/-- A batch has a successful record iff the success filter used to compute
the exit code is non-empty. -/
lemma exists_success_iff (l : List OutcomeRecord) :
    (∃ r0 ∈ l, r0.status = "success") ↔
      0 < (l.filter (fun r => r.status == "success")).length := by
  constructor
  · rintro ⟨r0, hr0, hst⟩
    have hm : r0 ∈ l.filter (fun r => r.status == "success") :=
      List.mem_filter.mpr ⟨hr0, by simp [hst]⟩
    exact List.length_pos.mpr (List.ne_nil_of_mem hm)
  · intro h
    rcases List.exists_mem_of_length_pos h with ⟨r0, hr0⟩
    rcases List.mem_filter.mp hr0 with ⟨hmem, hpred⟩
    exact ⟨r0, hmem, by simpa using hpred⟩

/-- C2: the final status reported to the queue for a run job is COMPLETED
iff at least one item's record is a success or the filtered WorkSet was
empty; in every other case (zero successes with a non-empty WorkSet, login
failure, schema detection failure, or a fatal error such as driver setup
raising) the reported status is FAILED. -/
theorem final_status_completed_iff (env : RunEnv) (t : Table) :
    finalStatusOfExit (runBot env t).exitCode = "COMPLETED" ↔
      (env.setupOk = true ∧ env.loginOk = true ∧
        ∃ res, loadSpreadsheet t = Except.ok res ∧
          (res.workset = [] ∨ ∃ r0 ∈ (runBot env t).results, r0.status = "success")) := by
  rcases hs : env.setupOk
  · apply iff_of_false
    · simp [runBot, hs, finalStatusOfExit]
    · rintro ⟨hs', -, -⟩; cases hs'
  · rcases hl : env.loginOk
    · apply iff_of_false
      · simp [runBot, hs, hl, finalStatusOfExit]
      · rintro ⟨-, hl', -⟩; cases hl'
    · rcases hload : loadSpreadsheet t with e | res
      · apply iff_of_false
        · simp [runBot, hs, hl, hload, finalStatusOfExit]
        · rintro ⟨-, -, res, hload', -⟩; cases hload'
      · by_cases hws : res.workset.length = 0
        · apply iff_of_true
          · simp [runBot, hs, hl, hload, hws, finalStatusOfExit]
          · exact ⟨rfl, rfl, res, rfl, Or.inl (List.length_eq_zero.mp hws)⟩
        · have hrb : runBot env t =
              { exitCode :=
                  if 0 < ((processPosts env.att res.workset res.original
                      res.statusColName).1.filter (fun r => r.status == "success")).length
                  then 0 else 3
                results := (processPosts env.att res.workset res.original res.statusColName).1
                ledger := some (processPosts env.att res.workset res.original res.statusColName).2
                events := [Event.cleanupCall, Event.driverQuit] } := by
            simp [runBot, hs, hl, hload, hws]
          rw [hrb]
          by_cases hsucc :
              0 < ((processPosts env.att res.workset res.original
                res.statusColName).1.filter (fun r => r.status == "success")).length
          · apply iff_of_true
            · simp [hsucc, finalStatusOfExit]
            · exact ⟨rfl, rfl, res, rfl, Or.inr ((exists_success_iff _).mpr hsucc)⟩
          · apply iff_of_false
            · simp [hsucc, finalStatusOfExit]
            · rintro ⟨-, -, res', hres', hor⟩
              cases hres'
              rcases hor with hnil | hex
              · exact hws (by simp [hnil])
              · exact hsucc ((exists_success_iff _).mp hex)

/-- Witness: the COMPLETED-iff equivalence at a concrete environment and
dataset (empty WorkSet, so status is COMPLETED). -/
theorem final_status_completed_iff_witness :
    finalStatusOfExit (runBot ⟨true, true, fun _ _ => AttemptOutcome.notConfirmed⟩
        ⟨["url", "comment"], []⟩).exitCode = "COMPLETED" ↔
      ((true : Bool) = true ∧ (true : Bool) = true ∧
        ∃ res, loadSpreadsheet ⟨["url", "comment"], []⟩ = Except.ok res ∧
          (res.workset = [] ∨
            ∃ r0 ∈ (runBot ⟨true, true, fun _ _ => AttemptOutcome.notConfirmed⟩
              ⟨["url", "comment"], []⟩).results, r0.status = "success")) :=
  final_status_completed_iff ⟨true, true, fun _ _ => AttemptOutcome.notConfirmed⟩
    ⟨["url", "comment"], []⟩

/-- A job whose download succeeds and whose bot run fails at driver setup
(so its final reported status is FAILED, a terminal status). -/
def quickFailJob : JobEnv :=
  ⟨true, ⟨false, false, fun _ _ => AttemptOutcome.notConfirmed⟩, ⟨[], []⟩, false⟩

/-- C7 counterexample: starting a worker with the flag file absent and two
jobs in the queue, the first job ends in the terminal status FAILED and
sets the flag file, yet the second job — run by the same worker after the
flag is set (its trace entry records `flagAtStart = true`) — still runs
with `headless = false`, i.e. in interactive mode, because `is_first_run`
was read once at process start and never re-read. -/
theorem first_run_flag_counterexample :
    (workerRun false [quickFailJob, quickFailJob]).1 =
      [JobTrace.ran false false "FAILED", JobTrace.ran true false "FAILED"] ∧
    (workerRun false [quickFailJob, quickFailJob]).2 = true ∧
    JobTrace.ran true false "FAILED" ∈ (workerRun false [quickFailJob, quickFailJob]).1 := by
  refine ⟨rfl, rfl, ?_⟩
  show JobTrace.ran true false "FAILED" ∈
    [JobTrace.ran false false "FAILED", JobTrace.ran true false "FAILED"]
  simp

/-- Every trace entry of a worker started with the flag file already set
records headless mode. -/
lemma workerGo_headless_of_flag (jobs : List JobEnv) :
    ∀ (flag : Bool) (e : JobTrace), e ∈ (workerGo false flag jobs).1 →
      ∀ f hl st, e = JobTrace.ran f hl st → hl = true := by
  induction jobs with
  | nil => intro flag e he; simp [workerGo] at he
  | cons j rest ih =>
    intro flag e he f hl st hran
    by_cases hd : j.downloadOk = false
    · simp [workerGo, hd] at he
      rcases he with he | he
      · rw [he] at hran; cases hran
      · exact ih flag e he f hl st hran
    · have hd' : j.downloadOk = true := by revert hd; cases j.downloadOk <;> simp
      by_cases hc : j.crashes = true
      · simp [workerGo, hd', hc] at he
        rw [he] at hran; cases hran
      · have hc' : j.crashes = false := by revert hc; cases j.crashes <;> simp
        simp [workerGo, hd', hc'] at he
        rcases he with he | he
        · rw [he] at hran
          injection hran with h1 h2 h3
          exact h2.symm
        · exact ih _ e he f hl st hran

/-- The flag file ends up set only if it was set at startup or some job of
the trace actually ran to a reported status. -/
lemma workerGo_flag_set (ifr : Bool) (jobs : List JobEnv) :
    ∀ flag : Bool, (workerGo ifr flag jobs).2 = true →
      flag = true ∨ ∃ f hl st, JobTrace.ran f hl st ∈ (workerGo ifr flag jobs).1 := by
  induction jobs with
  | nil => intro flag h; left; simpa [workerGo] using h
  | cons j rest ih =>
    intro flag h
    by_cases hd : j.downloadOk = false
    · simp only [workerGo, hd, Bool.not_false, if_true] at h ⊢
      rcases ih flag h with hflag | ⟨f, hl, st, hmem⟩
      · exact Or.inl hflag
      · exact Or.inr ⟨f, hl, st, by simp [hmem]⟩
    · have hd' : j.downloadOk = true := by revert hd; cases j.downloadOk <;> simp
      by_cases hc : j.crashes = true
      · simp only [workerGo, hd', Bool.not_true, if_false, hc, if_true] at h ⊢
        exact Or.inl h
      · have hc' : j.crashes = false := by revert hc; cases j.crashes <;> simp
        refine Or.inr ⟨flag, !ifr, finalStatusOfExit (runBot j.renv j.table).exitCode, ?_⟩
        simp [workerGo, hd', hc']

/-- C7 (amended): the first-run flag file is read once at worker startup;
every job run by a worker process started with the flag already set runs
the Session Controller in non-interactive (headless) mode, and the flag
file becomes set only after some job of this process actually ran to a
reported terminal status (never on a crash that bypasses reporting, and
never on a download failure).  Within the process that sets the flag,
later jobs still run interactively: the claim's "every subsequent job"
holds only across worker restarts. -/
theorem first_run_flag_amended :
    (∀ (jobs : List JobEnv) (e : JobTrace), e ∈ (workerRun true jobs).1 →
      ∀ f hl st, e = JobTrace.ran f hl st → hl = true) ∧
    (∀ (flag0 : Bool) (jobs : List JobEnv), (workerRun flag0 jobs).2 = true →
      flag0 = true ∨ ∃ f hl st, JobTrace.ran f hl st ∈ (workerRun flag0 jobs).1) := by
  constructor
  · intro jobs e he f hl st hran
    exact workerGo_headless_of_flag jobs true e he f hl st hran
  · intro flag0 jobs h
    exact workerGo_flag_set (!flag0) jobs flag0 h

/-- Witness: the amended flag semantics at concrete inputs — a worker
started with the flag set runs its job headless, and a worker that ends
with the flag set did run a job to a reported status. -/
theorem first_run_flag_amended_witness :
    (JobTrace.ran true true "FAILED" ∈ (workerRun true [quickFailJob]).1 ∧ (true : Bool) = true) ∧
    ((workerRun false [quickFailJob]).2 = true ∧
      (false = true ∨ ∃ f hl st, JobTrace.ran f hl st ∈ (workerRun false [quickFailJob]).1)) :=
  ⟨⟨by decide, first_run_flag_amended.1 [quickFailJob] (JobTrace.ran true true "FAILED")
      (by decide) true true "FAILED" rfl⟩,
    ⟨by decide, first_run_flag_amended.2 false [quickFailJob] (by decide)⟩⟩

/-- Membership in the enumerated row list. -/
lemma mem_enumFrom :
    ∀ (l : List (List Cell)) (n j : Nat) (r : List Cell),
      (j, r) ∈ enumFrom n l ↔ n ≤ j ∧ l[j - n]? = some r := by
  intro l
  induction l with
  | nil => intro n j r; simp [enumFrom]
  | cons x xs ih =>
    intro n j r
    simp only [enumFrom, List.mem_cons, ih]
    constructor
    · rintro (h | ⟨hle, hget⟩)
      · injection h with h1 h2
        subst h1; subst h2
        simp
      · refine ⟨by omega, ?_⟩
        have : j - n = (j - (n + 1)) + 1 := by omega
        rw [this]
        simpa using hget
    · rintro ⟨hle, hget⟩
      rcases Nat.eq_or_lt_of_le hle with heq | hlt
      · subst heq
        simp at hget
        left; rw [hget]
      · right
        refine ⟨by omega, ?_⟩
        have : j - n = (j - (n + 1)) + 1 := by omega
        rw [this] at hget
        simpa using hget

/-- Inversion of a successful `loadSpreadsheet`: every stage succeeded and
the result's fields are exactly what the pipeline computes. -/
lemma load_ok_spec (t : Table) (res : LoadResult)
    (h : loadSpreadsheet t = Except.ok res) :
    ∃ keep urlCol commentCol,
      filterME (keepDecide (strippedCols t) t.rows) (strippedCols t) = Except.ok keep ∧
      res.poss = possOf t keep ∧
      res.wcols = wcolsOf t keep ∧
      detectColumn (res.wcols.map normalizeCol) res.wcols Want.url = some urlCol ∧
      detectColumn (res.wcols.map normalizeCol) res.wcols Want.comment = some commentCol ∧
      uniquePos res.wcols urlCol = Except.ok res.urlPos ∧
      uniquePos res.wcols commentCol = Except.ok res.commentPos ∧
      res.statusColName = detectStatusCol (res.wcols.map normalizeCol) res.wcols ∧
      (if res.wcols.contains res.statusColName
        then (uniquePos res.wcols res.statusColName).map some
        else Except.ok none) = Except.ok res.statusPos ∧
      res.original = ensureCol t res.statusColName ∧
      res.workset =
        ((enumFrom 0 t.rows).map
            (fun jr => wrowOf res.poss res.urlPos res.commentPos jr.1 jr.2)).filter
          (fun w => cleanKeep w && statusKeep res.statusPos w) := by
  simp only [loadSpreadsheet] at h
  split at h
  · cases h
  · rename_i keep hkeep
    split at h
    · rename_i urlCol commentCol hu hc
      split at h
      · rename_i iu ic hiu hic
        split at h
        · cases h
        · rename_i statusPos hstatus
          injection h with h'
          subst h'
          exact ⟨keep, urlCol, commentCol, hkeep, rfl, rfl, hu, hc, hiu, hic, rfl, hstatus,
            rfl, rfl⟩
      · cases h
      · cases h
    · cases h

/-- The index recorded in a working row is the original row index. -/
lemma wrowOf_idx (poss : List Nat) (iu ic j : Nat) (r : List Cell) :
    (wrowOf poss iu ic j r).idx = j := by
  simp [wrowOf]

/-- Membership in the WorkSet produced by a successful load: exactly the
rows of the original table whose working row passes both the cleaning mask
and the already-completed filter. -/
lemma workset_mem (t : Table) (res : LoadResult) (h : loadSpreadsheet t = Except.ok res)
    (w : WRow) :
    w ∈ res.workset ↔
      ∃ r, t.rows[w.idx]? = some r ∧
        w = wrowOf res.poss res.urlPos res.commentPos w.idx r ∧
        (cleanKeep w && statusKeep res.statusPos w) = true := by
  rcases load_ok_spec t res h with
    ⟨keep, urlCol, commentCol, -, -, -, -, -, -, -, -, -, -, hws⟩
  rw [hws]
  rw [List.mem_filter]
  simp only [List.mem_map]
  constructor
  · rintro ⟨⟨⟨j, r⟩, hmem, hw⟩, hpred⟩
    have hidx : w.idx = j := by rw [← hw, wrowOf_idx]
    rcases (mem_enumFrom t.rows 0 j r).mp hmem with ⟨-, hget⟩
    simp only [Nat.sub_zero] at hget
    refine ⟨r, ?_, ?_, hpred⟩
    · rw [hidx]; exact hget
    · rw [hidx, ← hw]
  · rintro ⟨r, hget, hw, hpred⟩
    refine ⟨⟨⟨w.idx, r⟩, ?_, hw.symm⟩, hpred⟩
    exact (mem_enumFrom t.rows 0 w.idx r).mpr ⟨Nat.zero_le _, by simpa using hget⟩

/-- The selected working-row cells of original row `j` (the row as the
working DataFrame sees it after the column selection). -/
def selRow (t : Table) (poss : List Nat) (j : Nat) : List Cell :=
  poss.map (fun i => (t.rows.getD j []).getD i none)

/-- For an existing row, the working row built from it has the selected
cells. -/
lemma wrowOf_cells_eq_selRow (t : Table) (poss : List Nat) (iu ic j : Nat) (r : List Cell)
    (hget : t.rows[j]? = some r) :
    (wrowOf poss iu ic j r).cells = selRow t poss j := by
  have hr : t.rows.getD j [] = r := by
    rw [List.getD_eq_getElem?_getD, hget]
    rfl
  simp only [wrowOf, selRow, hr]

/-- Every record the batch runner produces corresponds to some WorkSet row
and carries that row's original index. -/
lemma processPosts_original_index (att : Nat → Nat → AttemptOutcome) (ws : List WRow)
    (ledger : Table) (sn : String) (r0 : OutcomeRecord)
    (hr0 : r0 ∈ (processPosts att ws ledger sn).1) :
    ∃ e ∈ ws, r0.original_index = e.idx := by
  rcases List.mem_iff_getElem?.mp hr0 with ⟨k, hk⟩
  have hlt : k < (processPosts att ws ledger sn).1.length :=
    (List.getElem?_eq_some.mp hk).1
  have hlen : (processPosts att ws ledger sn).1.length = ws.length :=
    processPostsGo_length att sn ws 0 ledger
  have hklt : k < ws.length := hlen ▸ hlt
  have hwk : ws[k]? = some ws[k] := List.getElem?_eq_getElem hklt
  have := processPostsGo_getElem? att sn ws 0 ledger k ws[k] hwk
  rw [processPosts] at hk
  rw [this] at hk
  injection hk with hk'
  refine ⟨ws[k], List.getElem_mem hklt, ?_⟩
  rw [← hk']
  exact (processSinglePost_fixed_fields _ _ _ _ _).1

/-- C1: for every input dataset, every row whose status column holds one of
the completion markers Y, YES, TRUE, 1 (case-insensitively, after
trimming) is excluded from the WorkSet returned by load, and no such row
ever appears in any OutcomeRecord of the subsequent batch. -/
theorem completed_rows_never_processed (t : Table) (res : LoadResult)
    (att : Nat → Nat → AttemptOutcome) (ledger : Table) (j p : Nat)
    (hload : loadSpreadsheet t = Except.ok res)
    (hp : res.statusPos = some p)
    (hmark : isCompleted (cellStr ((selRow t res.poss j).getD p none)) = true) :
    (∀ e ∈ res.workset, e.idx ≠ j) ∧
    (∀ r0 ∈ (processPosts att res.workset ledger res.statusColName).1,
      r0.original_index ≠ j) := by
  have hpart1 : ∀ e ∈ res.workset, e.idx ≠ j := by
    intro e he heq
    rcases (workset_mem t res hload e).mp he with ⟨r, hget, hw, hpred⟩
    have hcells : e.cells = selRow t res.poss e.idx := by
      rw [hw]
      exact wrowOf_cells_eq_selRow t res.poss res.urlPos res.commentPos e.idx r hget
    have hsk : statusKeep res.statusPos e = true := by
      have hpred' := hpred
      simp only [Bool.and_eq_true] at hpred'
      exact hpred'.2
    rw [hp] at hsk
    simp only [statusKeep] at hsk
    rw [hcells, heq] at hsk
    rw [hmark] at hsk
    cases hsk
  refine ⟨hpart1, ?_⟩
  intro r0 hr0 heq
  rcases processPosts_original_index att res.workset ledger res.statusColName r0 hr0 with
    ⟨e, he, hidx⟩
  exact hpart1 e he (by rw [← hidx, heq])

/-- Witness: a concrete one-row dataset whose status cell is `Y` loads to an
empty WorkSet and so never reaches the batch. -/
theorem completed_rows_never_processed_witness :
    (loadSpreadsheet ⟨["url", "comment", "status"], [[some "u", some "c", some "Y"]]⟩ =
      Except.ok ⟨[], ⟨["url", "comment", "status"], [[some "u", some "c", some "Y"]]⟩,
        "status", ["url", "comment", "status"], [0, 1, 2], 0, 1, some 2⟩) ∧
    ((⟨[], ⟨["url", "comment", "status"], [[some "u", some "c", some "Y"]]⟩,
        "status", ["url", "comment", "status"], [0, 1, 2], 0, 1, some 2⟩ : LoadResult).statusPos =
      some 2) ∧
    (isCompleted (cellStr ((selRow ⟨["url", "comment", "status"], [[some "u", some "c", some "Y"]]⟩
        [0, 1, 2] 0).getD 2 none)) = true) ∧
    ((∀ e ∈ ([] : List WRow), e.idx ≠ 0) ∧
      (∀ r0 ∈ (processPosts (fun _ _ => AttemptOutcome.notConfirmed) [] ⟨[], []⟩ "status").1,
        r0.original_index ≠ 0)) :=
  ⟨rfl, rfl, rfl,
    completed_rows_never_processed
      ⟨["url", "comment", "status"], [[some "u", some "c", some "Y"]]⟩
      ⟨[], ⟨["url", "comment", "status"], [[some "u", some "c", some "Y"]]⟩,
        "status", ["url", "comment", "status"], [0, 1, 2], 0, 1, some 2⟩
      (fun _ _ => AttemptOutcome.notConfirmed) ⟨[], []⟩ 0 2 rfl rfl rfl⟩

/-- C5: when the URL-like column or the comment-like column cannot be
resolved by the alias and substring heuristics, load fails with the schema
error naming each missing column, and no item is ever attempted — the run
produces no OutcomeRecord and reports FAILED. -/
theorem schema_error_before_any_item (t : Table) (keep : List String) (uo co : Option String)
    (hkeep : filterME (keepDecide (strippedCols t) t.rows) (strippedCols t) = Except.ok keep)
    (hu : detectColumn ((wcolsOf t keep).map normalizeCol) (wcolsOf t keep) Want.url = uo)
    (hc : detectColumn ((wcolsOf t keep).map normalizeCol) (wcolsOf t keep) Want.comment = co)
    (hmiss : uo = none ∨ co = none) :
    loadSpreadsheet t = Except.error (schemaErrorMsg uo co) ∧
    (uo = none → strContains (schemaErrorMsg uo co) urlMissingDesc = true) ∧
    (co = none → strContains (schemaErrorMsg uo co) commentMissingDesc = true) ∧
    (∀ env : RunEnv, (runBot env t).results = [] ∧
      finalStatusOfExit (runBot env t).exitCode = "FAILED") := by
  have hload : loadSpreadsheet t = Except.error (schemaErrorMsg uo co) := by
    simp only [loadSpreadsheet]
    rw [hkeep]
    rcases uo with _ | u <;> rcases co with _ | c <;> simp only [hu, hc] <;>
      first
      | rfl
      | simp at hmiss
  refine ⟨hload, ?_, ?_, ?_⟩
  · intro huo
    subst huo
    rcases co with _ | c <;> rfl
  · intro hco
    subst hco
    rcases uo with _ | u <;> rfl
  · intro env
    rcases hs : env.setupOk
    · simp [runBot, hs, finalStatusOfExit]
    · rcases hl : env.loginOk
      · simp [runBot, hs, hl, finalStatusOfExit]
      · simp [runBot, hs, hl, hload, finalStatusOfExit]

/-- Witness: a one-column dataset in which neither logical column resolves;
its schema error names both missing columns. -/
theorem schema_error_before_any_item_witness :
    (filterME (keepDecide (strippedCols ⟨["foo"], [[some "1"]]⟩ )
        (⟨["foo"], [[some "1"]]⟩ : Table).rows) (strippedCols ⟨["foo"], [[some "1"]]⟩) =
      Except.ok ["foo"]) ∧
    (loadSpreadsheet ⟨["foo"], [[some "1"]]⟩ = Except.error (schemaErrorMsg none none) ∧
      (none = (none : Option String) →
        strContains (schemaErrorMsg (none : Option String) none) urlMissingDesc = true) ∧
      (none = (none : Option String) →
        strContains (schemaErrorMsg (none : Option String) none) commentMissingDesc = true) ∧
      (∀ env : RunEnv, (runBot env ⟨["foo"], [[some "1"]]⟩).results = [] ∧
        finalStatusOfExit (runBot env ⟨["foo"], [[some "1"]]⟩).exitCode = "FAILED")) :=
  ⟨rfl,
    schema_error_before_any_item ⟨["foo"], [[some "1"]]⟩ ["foo"] none none rfl rfl rfl
      (Or.inl rfl)⟩

/-- C10: any row whose target-reference or payload cell stringifies (after
the standardizing transform) to `"nan"` under lowercasing — e.g. a cell
holding exactly `"NaN"`, or an empty cell rendered as NaN by
`astype(str)` — is excluded from the WorkSet during load, in addition to
rows whose transformed URL or comment is empty (blank or whitespace-only
cells). -/
theorem nan_rows_excluded (t : Table) (res : LoadResult) (j : Nat) (r : List Cell)
    (hload : loadSpreadsheet t = Except.ok res)
    (hr : t.rows[j]? = some r)
    (hnan : strLower (wrowOf res.poss res.urlPos res.commentPos j r).url = "nan" ∨
      strLower (wrowOf res.poss res.urlPos res.commentPos j r).comment = "nan" ∨
      (wrowOf res.poss res.urlPos res.commentPos j r).url = "" ∨
      (wrowOf res.poss res.urlPos res.commentPos j r).comment = "") :
    ∀ e ∈ res.workset, e.idx ≠ j := by
  intro e he heq
  rcases (workset_mem t res hload e).mp he with ⟨r', hget', hw, hpred⟩
  rw [heq] at hget'
  have hrr : r' = r := Option.some_inj.mp (hget'.symm.trans hr)
  subst hrr
  rw [heq] at hw
  rw [← hw] at hnan
  have hck : cleanKeep e = true := by
    have hpred' := hpred
    simp only [Bool.and_eq_true] at hpred'
    exact hpred'.1
  rcases hnan with hn | hn | hn | hn <;> simp [cleanKeep, hn] at hck

/-- Witness: a row whose URL cell is the literal string `NaN` is dropped
(the loaded WorkSet of this dataset is empty). -/
theorem nan_rows_excluded_witness :
    (loadSpreadsheet ⟨["url", "comment"], [[some "NaN", some "c"]]⟩ =
      Except.ok ⟨[], ⟨["url", "comment", "Commented (Y/N)"], [[some "NaN", some "c", some ""]]⟩,
        "Commented (Y/N)", ["url", "comment"], [0, 1], 0, 1, none⟩) ∧
    ((⟨["url", "comment"], [[some "NaN", some "c"]]⟩ : Table).rows[0]? =
      some [some "NaN", some "c"]) ∧
    (strLower (wrowOf [0, 1] 0 1 0 [some "NaN", some "c"]).url = "nan") ∧
    (∀ e ∈ ([] : List WRow), e.idx ≠ 0) :=
  ⟨rfl, rfl, rfl,
    nan_rows_excluded ⟨["url", "comment"], [[some "NaN", some "c"]]⟩
      ⟨[], ⟨["url", "comment", "Commented (Y/N)"], [[some "NaN", some "c", some ""]]⟩,
        "Commented (Y/N)", ["url", "comment"], [0, 1], 0, 1, none⟩
      0 [some "NaN", some "c"] rfl rfl (Or.inl rfl)⟩

/-- C9: the marker written to the status column is exactly `"Y"` for a
successful item and exactly `"N"` for a failed one; `"N"` is not a
completion marker, so a row whose status cell reads `"N"` (and which
passes the cleaning mask) is included again by a subsequent load, while a
row whose status cell reads `"Y"` is excluded. -/
theorem failure_marker_row_reloaded (t : Table) (res : LoadResult) (j p : Nat) (r : List Cell)
    (hload : loadSpreadsheet t = Except.ok res)
    (hp : res.statusPos = some p)
    (hr : t.rows[j]? = some r)
    (hclean : cleanKeep (wrowOf res.poss res.urlPos res.commentPos j r) = true) :
    (statusMarker "success" = "Y" ∧ statusMarker "failed" = "N") ∧
    (isCompleted "Y" = true ∧ isCompleted "N" = false) ∧
    ((wrowOf res.poss res.urlPos res.commentPos j r).cells.getD p none = some "N" →
      ∃ e ∈ res.workset, e.idx = j) ∧
    ((wrowOf res.poss res.urlPos res.commentPos j r).cells.getD p none = some "Y" →
      ∀ e ∈ res.workset, e.idx ≠ j) := by
  refine ⟨⟨rfl, rfl⟩, ⟨by decide, by decide⟩, ?_, ?_⟩
  · intro hcell
    refine ⟨wrowOf res.poss res.urlPos res.commentPos j r, ?_, wrowOf_idx _ _ _ _ _⟩
    apply (workset_mem t res hload _).mpr
    refine ⟨r, ?_, ?_, ?_⟩
    · rw [wrowOf_idx]; exact hr
    · rw [wrowOf_idx]
    · rw [Bool.and_eq_true]
      refine ⟨hclean, ?_⟩
      rw [hp]
      simp only [statusKeep]
      rw [hcell]
      decide
  · intro hcell e he heq
    rcases (workset_mem t res hload e).mp he with ⟨r', hget', hw, hpred⟩
    rw [heq] at hget'
    have hrr : r' = r := Option.some_inj.mp (hget'.symm.trans hr)
    subst hrr
    rw [heq] at hw
    have hsk : statusKeep res.statusPos e = true := by
      have hpred' := hpred
      simp only [Bool.and_eq_true] at hpred'
      exact hpred'.2
    rw [hp] at hsk
    simp only [statusKeep] at hsk
    rw [hw, hcell] at hsk
    have hy : isCompleted (cellStr (some "Y")) = true := by decide
    rw [hy] at hsk
    simp at hsk

/-- Witness: a concrete dataset whose single row is marked `"N"` is loaded
into the WorkSet again. -/
theorem failure_marker_row_reloaded_witness :
    (loadSpreadsheet ⟨["url", "comment", "status"], [[some "u", some "c", some "N"]]⟩ =
      Except.ok ⟨[⟨0, [some "u", some "c", some "N"], "u", "c"⟩],
        ⟨["url", "comment", "status"], [[some "u", some "c", some "N"]]⟩,
        "status", ["url", "comment", "status"], [0, 1, 2], 0, 1, some 2⟩) ∧
    (cleanKeep (wrowOf [0, 1, 2] 0 1 0 [some "u", some "c", some "N"]) = true) ∧
    ((wrowOf [0, 1, 2] 0 1 0 [some "u", some "c", some "N"]).cells.getD 2 none = some "N") ∧
    (∃ e ∈ ([⟨0, [some "u", some "c", some "N"], "u", "c"⟩] : List WRow), e.idx = 0) :=
  ⟨rfl, rfl, rfl,
    (failure_marker_row_reloaded ⟨["url", "comment", "status"], [[some "u", some "c", some "N"]]⟩
      ⟨[⟨0, [some "u", some "c", some "N"], "u", "c"⟩],
        ⟨["url", "comment", "status"], [[some "u", some "c", some "N"]]⟩,
        "status", ["url", "comment", "status"], [0, 1, 2], 0, 1, some 2⟩
      0 2 [some "u", some "c", some "N"] rfl rfl rfl rfl).2.2.1 rfl⟩

/-- Characterization of column-position membership. -/
lemma mem_colPositions (cols : List String) (name : String) (p : Nat) :
    p ∈ colPositions cols name ↔ p < cols.length ∧ cols.getD p "" = name := by
  simp [colPositions, List.mem_filter, List.mem_range]

/-- Setting a cell writes the value when in range. -/
lemma set_getD_self : ∀ (r : List Cell) (p : Nat) (v : Cell), p < r.length →
    (r.set p v).getD p none = v := by
  intro r
  induction r with
  | nil => intro p v hp; simp at hp
  | cons x xs ih =>
    intro p v hp
    cases p with
    | zero => simp
    | succ q => simpa using ih q v (by simpa using hp)

/-- Setting a cell leaves other positions alone. -/
lemma set_getD_ne : ∀ (r : List Cell) (p q : Nat) (v : Cell), p ≠ q →
    (r.set q v).getD p none = r.getD p none := by
  intro r
  induction r with
  | nil => intro p q v hpq; simp
  | cons x xs ih =>
    intro p q v hpq
    cases q with
    | zero => cases p with
      | zero => exact absurd rfl hpq
      | succ p' => simp
    | succ q' => cases p with
      | zero => simp
      | succ p' => simpa using ih p' q' v (by omega)

/-- The fold writing the status marker leaves positions outside the write
set alone. -/
lemma foldl_set_getD_not_mem (v : Cell) :
    ∀ (P : List Nat) (r : List Cell) (p : Nat), p ∉ P →
      (P.foldl (fun r' q => r'.set q v) r).getD p none = r.getD p none := by
  intro P
  induction P with
  | nil => intro r p _; rfl
  | cons q P' ih =>
    intro r p hp
    simp only [List.mem_cons, not_or] at hp
    rw [List.foldl_cons, ih (r.set q v) p hp.2, set_getD_ne r p q v hp.1]

/-- The fold writing the status marker writes the value at every in-range
position of the write set. -/
lemma foldl_set_getD_mem (v : Cell) :
    ∀ (P : List Nat) (r : List Cell) (p : Nat), P.Nodup → p ∈ P → p < r.length →
      (P.foldl (fun r' q => r'.set q v) r).getD p none = v := by
  intro P
  induction P with
  | nil => intro r p _ hp; simp at hp
  | cons q P' ih =>
    intro r p hnd hp hlen
    rcases List.nodup_cons.mp hnd with ⟨hq, hnd'⟩
    rw [List.foldl_cons]
    rcases List.mem_cons.mp hp with rfl | hp'
    · rw [foldl_set_getD_not_mem v P' (r.set p v) p hq]
      exact set_getD_self r p v hlen
    · exact ih (r.set q v) p hnd' hp' (by simpa using hlen)

/-- Membership after the marker-writing fold: every cell is an original
cell or the written value. -/
lemma mem_foldl_set (v : Cell) :
    ∀ (P : List Nat) (r : List Cell) (c : Cell),
      c ∈ P.foldl (fun r' q => r'.set q v) r → c ∈ r ∨ c = v := by
  intro P
  induction P with
  | nil => intro r c hc; exact Or.inl hc
  | cons q P' ih =>
    intro r c hc
    rw [List.foldl_cons] at hc
    rcases ih (r.set q v) c hc with hmem | hv
    · rcases List.mem_or_eq_of_mem_set hmem with h | h
      · exact Or.inl h
      · exact Or.inr h
    · exact Or.inr hv

/-- The position list of a column name has no duplicates. -/
lemma colPositions_nodup (cols : List String) (name : String) :
    (colPositions cols name).Nodup :=
  (List.nodup_range _).filter _

/-- `updateRows` preserves length. -/
lemma updateRows_length : ∀ (rows : List (List Cell)) (j : Nat) (f : List Cell → List Cell),
    (updateRows rows j f).length = rows.length := by
  intro rows
  induction rows with
  | nil => intro j f; rfl
  | cons r rs ih =>
    intro j f
    cases j with
    | zero => rfl
    | succ j' => simpa [updateRows] using ih j' f

/-- `updateRows` leaves other rows alone. -/
lemma updateRows_getElem?_ne : ∀ (rows : List (List Cell)) (j k : Nat)
    (f : List Cell → List Cell), k ≠ j → (updateRows rows j f)[k]? = rows[k]? := by
  intro rows
  induction rows with
  | nil => intro j k f _; rfl
  | cons r rs ih =>
    intro j k f hkj
    cases j with
    | zero => cases k with
      | zero => exact absurd rfl hkj
      | succ k' => simp [updateRows]
    | succ j' => cases k with
      | zero => simp [updateRows]
      | succ k' => simpa [updateRows] using ih j' k' f (by omega)

/-- `updateRows` applies the update at the target row. -/
lemma updateRows_getElem?_eq : ∀ (rows : List (List Cell)) (j : Nat)
    (f : List Cell → List Cell) (r : List Cell), rows[j]? = some r →
      (updateRows rows j f)[j]? = some (f r) := by
  intro rows
  induction rows with
  | nil => intro j f r hr; simp at hr
  | cons x xs ih =>
    intro j f r hr
    cases j with
    | zero =>
      simp at hr
      subst hr
      simp [updateRows]
    | succ j' =>
      simp at hr
      simpa [updateRows] using ih j' f r hr

/-- Column-wise all-missing tests agree on row lists that agree at the
inspected position. -/
lemma all_isNone_congr : ∀ (rows rows' : List (List Cell)) (p : Nat),
    rows'.length = rows.length →
    (∀ j, (rows'.getD j []).getD p none = (rows.getD j []).getD p none) →
    (rows'.all (fun r => (r.getD p none).isNone)) =
      (rows.all (fun r => (r.getD p none).isNone)) := by
  intro rows
  induction rows with
  | nil => intro rows' p hlen _; rw [List.length_nil, List.length_eq_zero] at hlen; rw [hlen]
  | cons r rs ih =>
    intro rows' p hlen hagree
    cases rows' with
    | nil => simp at hlen
    | cons r' rs' =>
      simp only [List.all_cons]
      have h0 := hagree 0
      simp only [List.getD_cons_zero] at h0
      rw [h0]
      congr 1
      exact ih rs' p (by simpa using hlen) (fun j => by simpa using hagree (j + 1))

/-- The `Unnamed`-drop decision is unchanged when the rows change only at
positions whose column name does not start with `Unnamed`. -/
lemma keepDecide_congr (cols : List String) (rows rows' : List (List Cell)) (c : String)
    (hlen : rows'.length = rows.length)
    (hagreeU : ∀ p, p < cols.length → strStartsWith (cols.getD p "") "Unnamed" = true →
      ∀ j, (rows'.getD j []).getD p none = (rows.getD j []).getD p none) :
    keepDecide cols rows' c = keepDecide cols rows c := by
  unfold keepDecide
  by_cases hst : strStartsWith c "Unnamed" = true
  · rw [hst]
    simp only [if_true]
    rcases hcp : colPositions cols c with _ | ⟨p, ps⟩
    · rfl
    · cases ps with
      | nil =>
        have hp : p ∈ colPositions cols c := by rw [hcp]; exact List.mem_singleton.mpr rfl
        rcases (mem_colPositions cols c p).mp hp with ⟨hplen, hpname⟩
        have hag : ∀ j, (rows'.getD j []).getD p none = (rows.getD j []).getD p none :=
          hagreeU p hplen (by rw [hpname]; exact hst)
        show Except.ok (!rows'.all fun r => (r.getD p none).isNone) =
          Except.ok (!rows.all fun r => (r.getD p none).isNone)
        rw [all_isNone_congr rows rows' p hlen hag]
      | cons q qs => rfl
  · have hst' : strStartsWith c "Unnamed" = false := by
      revert hst; cases strStartsWith c "Unnamed" <;> simp
    rw [hst']
    simp

/-- The whole `Unnamed`-drop comprehension is unchanged under the same
condition. -/
lemma filterME_keepDecide_congr (cols : List String) (rows rows' : List (List Cell))
    (hlen : rows'.length = rows.length)
    (hagreeU : ∀ p, p < cols.length → strStartsWith (cols.getD p "") "Unnamed" = true →
      ∀ j, (rows'.getD j []).getD p none = (rows.getD j []).getD p none) :
    ∀ l, filterME (keepDecide cols rows') l = filterME (keepDecide cols rows) l := by
  intro l
  induction l with
  | nil => rfl
  | cons c cs ih =>
    unfold filterME
    rw [keepDecide_congr cols rows rows' c hlen hagreeU, ih]

/-- Re-reading serialized bytes is the identity on tables without
empty-string cells. -/
lemma roundTripCell_eq_self (c : Cell) (h : c ≠ some "") : roundTripCell c = c := by
  rcases c with _ | s
  · rfl
  · have hs : ¬s = "" := fun hs => h (by rw [hs])
    simp [roundTripCell, hs]

/-- Re-reading serialized bytes is the identity on rows without
empty-string cells. -/
lemma roundTrip_row_eq_self (r : List Cell) (hr : (some "" : Cell) ∉ r) :
    r.map roundTripCell = r := by
  induction r with
  | nil => rfl
  | cons c cs ihc =>
    simp only [List.mem_cons, not_or] at hr
    rw [List.map_cons, ihc hr.2, roundTripCell_eq_self c (fun h => hr.1 h.symm)]

lemma roundTrip_eq_self (t : Table) (hcell : ∀ r ∈ t.rows, (some "" : Cell) ∉ r) :
    roundTrip t = t := by
  have hmain : ∀ rows : List (List Cell), (∀ r ∈ rows, (some "" : Cell) ∉ r) →
      rows.map (fun r => r.map roundTripCell) = rows := by
    intro rows
    induction rows with
    | nil => intro _; rfl
    | cons r rs ih =>
      intro h
      rw [List.map_cons, roundTrip_row_eq_self r (h r (List.mem_cons_self r rs)),
        ih (fun r' hr' => h r' (List.mem_cons_of_mem r hr'))]
  unfold roundTrip
  rw [hmain t.rows hcell]

/-- Pairs of a list zipped with its image are function graphs. -/
lemma zip_map_fst (f : String → String) :
    ∀ (l : List String) (pr : String × String), pr ∈ (l.map f).zip l → pr.1 = f pr.2 := by
  intro l
  induction l with
  | nil => intro pr hpr; simp at hpr
  | cons x xs ih =>
    intro pr hpr
    rcases List.mem_cons.mp hpr with h | h
    · rw [h]
    · exact ih pr h

/-- The resolved status column is the canonical default — in which case no
zipped column passed the alias filter at all — or is one of the raw column
names, with a normalized name in the alias set. -/
lemma detectStatusCol_spec (raws : List String) :
    (((raws.map normalizeCol).zip raws).filter (fun p => statusCandidates.contains p.1) = [] ∧
      detectStatusCol (raws.map normalizeCol) raws = "Commented (Y/N)") ∨
      (detectStatusCol (raws.map normalizeCol) raws ∈ raws ∧
        normalizeCol (detectStatusCol (raws.map normalizeCol) raws) ∈ statusCandidates) := by
  unfold detectStatusCol
  rcases hh : (((raws.map normalizeCol).zip raws).filter
      (fun p => statusCandidates.contains p.1)).head? with _ | pr
  · left
    refine ⟨List.head?_eq_none_iff.mp hh, ?_⟩
    rw [hh]
    rfl
  · right
    rw [hh]
    have hmem : pr ∈ ((raws.map normalizeCol).zip raws).filter
        (fun p => statusCandidates.contains p.1) :=
      List.mem_of_mem_head? (by rw [hh]; rfl)
    rcases List.mem_filter.mp hmem with ⟨hzip, hcand⟩
    have h1 := zip_map_fst normalizeCol raws pr hzip
    obtain ⟨n, r⟩ := pr
    constructor
    · show r ∈ raws
      exact (List.of_mem_zip hzip).2
    · show normalizeCol r ∈ statusCandidates
      rw [show normalizeCol r = n from h1.symm]
      simpa using hcand

/-- A string whose strip starts with `Unnamed` normalizes to a string whose
character list starts with `u`. -/
lemma normalizeCol_head_of_unnamed (s : String)
    (h : strStartsWith (pyStrip s) "Unnamed" = true) :
    ∃ l, (normalizeCol s).toList = 'u' :: l := by
  have hpre : ("Unnamed".toList) <+: (pyStrip s).toList := by
    rw [← List.isPrefixOf_iff_prefix]
    exact h
  rcases hpre with ⟨tail, htail⟩
  have hlist : (pyStrip s).toList = 'U' :: ('n' :: 'n' :: 'a' :: 'm' :: 'e' :: 'd' :: tail) := by
    rw [← htail]; rfl
  refine ⟨((('n' :: 'n' :: 'a' :: 'm' :: 'e' :: 'd' :: tail).map Char.toLower).map
      (fun c => if c = ' ' then '_' else c)).map (fun c => if c = '-' then '_' else c), ?_⟩
  show (replaceChar '-' '_' (replaceChar ' ' '_' (strLower (pyStrip s)))).toList = _
  unfold replaceChar strLower
  rw [List.toList_asString, List.toList_asString, List.toList_asString, hlist]
  rfl

/-- A resolvable status column name never strips to an `Unnamed`-prefixed
name (its normalization is a status alias, and aliases start with other
letters; the default name is concrete). -/
lemma statusCol_strip_not_unnamed (s : String)
    (h : normalizeCol s ∈ statusCandidates ∨ s = "Commented (Y/N)") :
    strStartsWith (pyStrip s) "Unnamed" = false := by
  rcases hb : strStartsWith (pyStrip s) "Unnamed"
  · rfl
  · exfalso
    rcases h with h | h
    · rcases normalizeCol_head_of_unnamed s hb with ⟨l, hl⟩
      simp only [statusCandidates, List.mem_cons, List.not_mem_nil, or_false] at h
      rcases h with h | h | h | h | h <;> rw [h] at hl <;> injection hl with h1 h2 <;>
        exact absurd h1 (by decide)
    · rw [h] at hb
      exact absurd hb (by decide)

/-- Forward construction of a successful load from its stage outcomes. -/
lemma load_again (t' : Table) (keep : List String) (urlCol commentCol : String)
    (iu ic : Nat) (sp : Option Nat)
    (hkeep : filterME (keepDecide (strippedCols t') t'.rows) (strippedCols t') = Except.ok keep)
    (hu : detectColumn ((wcolsOf t' keep).map normalizeCol) (wcolsOf t' keep) Want.url =
      some urlCol)
    (hc : detectColumn ((wcolsOf t' keep).map normalizeCol) (wcolsOf t' keep) Want.comment =
      some commentCol)
    (hiu : uniquePos (wcolsOf t' keep) urlCol = Except.ok iu)
    (hic : uniquePos (wcolsOf t' keep) commentCol = Except.ok ic)
    (hsp : (if (wcolsOf t' keep).contains
          (detectStatusCol ((wcolsOf t' keep).map normalizeCol) (wcolsOf t' keep))
        then (uniquePos (wcolsOf t' keep)
          (detectStatusCol ((wcolsOf t' keep).map normalizeCol) (wcolsOf t' keep))).map some
        else Except.ok none) = Except.ok sp) :
    loadSpreadsheet t' = Except.ok
      { workset := ((enumFrom 0 t'.rows).map
            (fun jr => wrowOf (possOf t' keep) iu ic jr.1 jr.2)).filter
          (fun w => cleanKeep w && statusKeep sp w)
        original := ensureCol t'
          (detectStatusCol ((wcolsOf t' keep).map normalizeCol) (wcolsOf t' keep))
        statusColName := detectStatusCol ((wcolsOf t' keep).map normalizeCol) (wcolsOf t' keep)
        wcols := wcolsOf t' keep
        poss := possOf t' keep
        urlPos := iu
        commentPos := ic
        statusPos := sp } := by
  simp only [loadSpreadsheet]
  rw [hkeep]
  simp only [hu, hc]
  simp only [hiu, hic]
  simp only [hsp]

/-- A row of an updated row list is an original row or the update of one. -/
lemma mem_updateRows : ∀ (rows : List (List Cell)) (j : Nat) (f : List Cell → List Cell)
    (r' : List Cell), r' ∈ updateRows rows j f → r' ∈ rows ∨ ∃ r, r ∈ rows ∧ r' = f r := by
  intro rows
  induction rows with
  | nil => intro j f r' h; simp [updateRows] at h
  | cons x xs ih =>
    intro j f r' h
    cases j with
    | zero =>
      rcases List.mem_cons.mp h with h' | h'
      · exact Or.inr ⟨x, List.mem_cons_self x xs, h'⟩
      · exact Or.inl (List.mem_cons_of_mem x h')
    | succ j' =>
      rcases List.mem_cons.mp h with h' | h'
      · exact Or.inl (by rw [h']; exact List.mem_cons_self x xs)
      · rcases ih j' f r' h' with hm | ⟨r, hr, hfr⟩
        · exact Or.inl (List.mem_cons_of_mem x hm)
        · exact Or.inr ⟨r, List.mem_cons_of_mem x hr, hfr⟩

/-- Convert an indexed lookup to a `getD` access. -/
lemma getD_of_getElem? (rows : List (List Cell)) (j : Nat) (r : List Cell)
    (h : rows[j]? = some r) : rows.getD j [] = r := by
  rw [List.getD_eq_getElem?_getD, h]; rfl

/-- `getD` through the column-name strip. -/
lemma stripped_getD (cols : List String) (p : Nat) (h : p < cols.length) :
    (cols.map pyStrip).getD p "" = pyStrip (cols.getD p "") := by
  rw [List.getD_eq_getElem?_getD, List.getD_eq_getElem?_getD, List.getElem?_map,
    List.getElem?_eq_getElem h]
  rfl

/-- `getD` through an append, below the appended element. -/
lemma getD_append_lt {α : Type} (l : List α) (x d : α) (p : Nat) (h : p < l.length) :
    (l ++ [x]).getD p d = l.getD p d := by
  induction l generalizing p with
  | nil => simp at h
  | cons a as ih =>
    cases p with
    | zero => rfl
    | succ q => simpa using ih q (by simpa using h)

/-- `getD` through an append, at the appended element. -/
lemma getD_append_self {α : Type} (l : List α) (x d : α) :
    (l ++ [x]).getD l.length d = x := by
  induction l with
  | nil => rfl
  | cons a as ih => simpa using ih

/-- `getD` through a map, in range. -/
lemma getD_map_lt (l : List Cell) (g : Cell → Cell) (p : Nat) (h : p < l.length) :
    (l.map g).getD p none = g (l.getD p none) := by
  induction l generalizing p with
  | nil => simp at h
  | cons a as ih =>
    cases p with
    | zero => rfl
    | succ q => simpa using ih q (by simpa using h)

/-- An in-range `getD` access is a member. -/
lemma getD_mem (r : List Cell) (p : Nat) (h : p < r.length) : r.getD p none ∈ r := by
  induction r generalizing p with
  | nil => simp at h
  | cons a as ih =>
    cases p with
    | zero => exact List.mem_cons_self a as
    | succ q => exact List.mem_cons_of_mem a (by simpa using ih q (by simpa using h))

/-- Setting at the length of the prefix replaces the appended element. -/
lemma set_append_len (x v : Cell) : ∀ (l : List Cell),
    (l ++ [x]).set l.length v = l ++ [v] := by
  intro l
  induction l with
  | nil => rfl
  | cons a as ih => exact congrArg (List.cons a) ih

/-- Positions of a name other than the appended one are unchanged by the
append. -/
lemma colPositions_append_ne (cols : List String) (x c : String) (hne : c ≠ x) :
    colPositions (cols ++ [x]) c = colPositions cols c := by
  unfold colPositions
  rw [show (cols ++ [x]).length = cols.length + 1 by simp, List.range_succ,
    List.filter_append]
  have h1 : (List.range cols.length).filter (fun i => decide ((cols ++ [x]).getD i "" = c)) =
      (List.range cols.length).filter (fun i => decide (cols.getD i "" = c)) := by
    apply List.filter_congr
    intro i hi
    rw [getD_append_lt cols x "" i (List.mem_range.mp hi)]
  have hxc : ¬x = c := fun h => hne h.symm
  have h2 : ([cols.length] : List Nat).filter
      (fun i => decide ((cols ++ [x]).getD i "" = c)) = [] := by
    simp [List.filter, getD_append_self, hxc]
  rw [h1, h2, List.append_nil]

/-- Positions of a freshly appended name: exactly the appended position. -/
lemma colPositions_append_self (cols : List String) (x : String) (hx : x ∉ cols) :
    colPositions (cols ++ [x]) x = [cols.length] := by
  unfold colPositions
  rw [show (cols ++ [x]).length = cols.length + 1 by simp, List.range_succ,
    List.filter_append]
  have h1 : (List.range cols.length).filter
      (fun i => decide ((cols ++ [x]).getD i "" = x)) = [] := by
    rw [List.filter_eq_nil_iff]
    intro i hi
    rw [getD_append_lt cols x "" i (List.mem_range.mp hi)]
    simp only [decide_eq_true_eq]
    intro heq
    apply hx
    have hlt := List.mem_range.mp hi
    rw [← heq]
    rw [List.getD_eq_getElem?_getD, List.getElem?_eq_getElem hlt]
    exact List.getElem_mem hlt
  have h2 : ([cols.length] : List Nat).filter
      (fun i => decide ((cols ++ [x]).getD i "" = x)) = [cols.length] := by
    simp [getD_append_self]
  rw [h1, h2, List.nil_append]

/-- Single-column lookup of a name other than the appended one is
unchanged by the append. -/
lemma uniquePos_append_ne (cols : List String) (x c : String) (hne : c ≠ x) :
    uniquePos (cols ++ [x]) c = uniquePos cols c := by
  unfold uniquePos
  rw [colPositions_append_ne cols x c hne]

/-- The effectful filter only looks at its function pointwise. -/
lemma filterME_congr (f g : String → Except String Bool) :
    ∀ l, (∀ c ∈ l, f c = g c) → filterME f l = filterME g l := by
  intro l
  induction l with
  | nil => intro _; rfl
  | cons c cs ih =>
    intro h
    unfold filterME
    rw [h c (List.mem_cons_self c cs), ih (fun c' hc' => h c' (List.mem_cons_of_mem c hc'))]

/-- The effectful filter returns elements of its input. -/
lemma filterME_subset (f : String → Except String Bool) :
    ∀ (l keep : List String), filterME f l = Except.ok keep → ∀ c ∈ keep, c ∈ l := by
  intro l
  induction l with
  | nil =>
    intro keep h c hc
    injection h with h'
    rw [← h'] at hc
    simp at hc
  | cons a as ih =>
    intro keep h c hc
    unfold filterME at h
    rcases hf : f a with e | b <;> rw [hf] at h
    · cases h
    · rcases hrest : filterME f as with e | rest <;> rw [hrest] at h
      · cases h
      · injection h with h'
        rw [← h'] at hc
        rcases b with _ | _
        · exact List.mem_cons_of_mem a (ih rest hrest c hc)
        · rcases List.mem_cons.mp hc with hc' | hc'
          · rw [hc']; exact List.mem_cons_self a as
          · exact List.mem_cons_of_mem a (ih rest hrest c hc')

/-- An element the decision keeps is in the effectful filter's output. -/
lemma filterME_mem_of_true (f : String → Except String Bool) :
    ∀ (l keep : List String), filterME f l = Except.ok keep → ∀ c ∈ l,
      f c = Except.ok true → c ∈ keep := by
  intro l
  induction l with
  | nil => intro keep _ c hc; simp at hc
  | cons a as ih =>
    intro keep h c hc hfc
    unfold filterME at h
    rcases hf : f a with e | b <;> rw [hf] at h
    · cases h
    · rcases hrest : filterME f as with e | rest <;> rw [hrest] at h
      · cases h
      · injection h with h'
        rcases List.mem_cons.mp hc with hc' | hc'
        · rw [hc'] at hfc ⊢
          rw [hfc] at hf
          injection hf with hb
          rw [← h', ← hb]
          simp
        · have hmem := ih rest hrest c hc' hfc
          rw [← h']
          rcases b with _ | _
          · exact hmem
          · exact List.mem_cons_of_mem a hmem

/-- Appending one kept element to the effectful filter's input appends it
to the output. -/
lemma filterME_append_singleton (f : String → Except String Bool) :
    ∀ (l keep : List String) (c : String), filterME f l = Except.ok keep →
      f c = Except.ok true → filterME f (l ++ [c]) = Except.ok (keep ++ [c]) := by
  intro l
  induction l with
  | nil =>
    intro keep c h hc
    injection h with h'
    rw [← h']
    show filterME f [c] = Except.ok ([] ++ [c])
    unfold filterME
    rw [hc]
    rfl
  | cons a as ih =>
    intro keep c h hc
    unfold filterME at h
    rcases hf : f a with e | b <;> rw [hf] at h
    · cases h
    · rcases hrest : filterME f as with e | rest <;> rw [hrest] at h
      · cases h
      · injection h with h'
        show filterME f (a :: (as ++ [c])) = Except.ok (keep ++ [c])
        unfold filterME
        rw [hf, ih rest c hrest hc]
        rw [← h']
        rcases b with _ | _ <;> rfl

/-- The `Unnamed`-drop decision is unchanged by appending a column with a
different name, when the rows agree at the inspected positions. -/
lemma keepDecide_append_ne (cols : List String) (rows rows' : List (List Cell))
    (x c : String) (hne : c ≠ x) (hlen : rows'.length = rows.length)
    (hagree : ∀ p ∈ colPositions cols c, ∀ j,
      (rows'.getD j []).getD p none = (rows.getD j []).getD p none) :
    keepDecide (cols ++ [x]) rows' c = keepDecide cols rows c := by
  unfold keepDecide
  by_cases hst : strStartsWith c "Unnamed" = true
  · rw [hst]
    simp only [if_true]
    rw [colPositions_append_ne cols x c hne]
    rcases hcp : colPositions cols c with _ | ⟨p, ps⟩
    · rfl
    · cases ps with
      | nil =>
        have hp : p ∈ colPositions cols c := by rw [hcp]; exact List.mem_singleton.mpr rfl
        show Except.ok (!rows'.all fun r => (r.getD p none).isNone) =
          Except.ok (!rows.all fun r => (r.getD p none).isNone)
        rw [all_isNone_congr rows rows' p hlen (hagree p hp)]
      | cons q qs => rfl
  · have hst' : strStartsWith c "Unnamed" = false := by
      revert hst; cases strStartsWith c "Unnamed" <;> simp
    rw [hst']
    simp

/-- A detected column name is one of the raw column names. -/
lemma detectColumn_mem (normCols rawCols : List String) (w : Want) (col : String)
    (h : detectColumn normCols rawCols w = some col) : col ∈ rawCols := by
  unfold detectColumn at h
  rcases hh : ((normCols.zip rawCols).filter (fun p => match w with
      | Want.url => urlCandidate p.1
      | Want.comment => commentCandidate p.1)).head? with _ | pr
  · rw [hh] at h; cases h
  · rw [hh] at h
    injection h with h'
    have hmem : pr ∈ (normCols.zip rawCols).filter (fun p => match w with
        | Want.url => urlCandidate p.1
        | Want.comment => commentCandidate p.1) :=
      List.mem_of_mem_head? (by rw [hh]; rfl)
    obtain ⟨n, r⟩ := pr
    rw [← h']
    exact (List.of_mem_zip (List.mem_filter.mp hmem).1).2

/-- A successful detection is unchanged by appending one more column. -/
lemma detectColumn_append_of_some (raws : List String) (x : String) (w : Want) (col : String)
    (h : detectColumn (raws.map normalizeCol) raws w = some col) :
    detectColumn ((raws ++ [x]).map normalizeCol) (raws ++ [x]) w = some col := by
  unfold detectColumn at h ⊢
  rw [List.map_append, List.zip_append (by simp), List.filter_append]
  rcases hf : (((raws.map normalizeCol).zip raws).filter (fun p => match w with
      | Want.url => urlCandidate p.1
      | Want.comment => commentCandidate p.1)) with _ | ⟨pr, rest⟩
  · rw [hf] at h; cases h
  · rw [hf] at h
    rw [hf]
    exact h

/-- When no column passed the status-alias filter, appending one that does
makes it the detected status column. -/
lemma detectStatusCol_append (raws : List String) (x : String)
    (hfe : ((raws.map normalizeCol).zip raws).filter
      (fun p => statusCandidates.contains p.1) = [])
    (hx : normalizeCol x ∈ statusCandidates) :
    detectStatusCol ((raws ++ [x]).map normalizeCol) (raws ++ [x]) = x := by
  unfold detectStatusCol
  rw [List.map_append, List.zip_append (by simp), List.filter_append, hfe, List.nil_append]
  have hxc : statusCandidates.contains (normalizeCol x) = true := List.elem_iff.mpr hx
  show ((([normalizeCol x].zip [x]).filter
      (fun p => statusCandidates.contains p.1)).head?.map (fun p => p.2)).getD
    "Commented (Y/N)" = x
  simp [List.filter, hxc, hx]

/-- `flatMap` only looks at its function pointwise. -/
lemma flatMap_congr_mem {α β : Type} (l : List α) (f g : α → List β)
    (h : ∀ a ∈ l, f a = g a) : l.flatMap f = l.flatMap g := by
  induction l with
  | nil => rfl
  | cons a as ih =>
    simp only [List.flatMap_cons]
    rw [h a (List.mem_cons_self a as),
      ih (fun a' ha' => h a' (List.mem_cons_of_mem a ha'))]

/-- Every selected position is in range of the stripped column list. -/
lemma possOf_lt (t : Table) (keep : List String) (p : Nat) (hp : p ∈ possOf t keep) :
    p < (strippedCols t).length := by
  unfold possOf at hp
  rcases List.mem_flatMap.mp hp with ⟨c, -, hpc⟩
  exact ((mem_colPositions (strippedCols t) c p).mp hpc).1

/-- Round-trip of the Row Ledger in the case where the resolved status
column name is itself one of the dataset's column names (so the ledger's
columns are exactly the dataset's). -/
lemma roundtrip_with_status_col (t : Table) (res : LoadResult) (R : Nat)
    (hload : loadSpreadsheet t = Except.ok res)
    (hsc : res.statusColName ∈ t.cols)
    (hcell : ∀ r ∈ t.rows, (some "" : Cell) ∉ r)
    (hrect : ∀ r ∈ t.rows, r.length = t.cols.length)
    (hR : R < t.rows.length) :
    ∃ res2, loadSpreadsheet (roundTrip (updateExcelFile res.original res.statusColName R "Y")) =
        Except.ok res2 ∧
      res2.original.cols = t.cols ∧
      res2.original.rows.length = t.rows.length ∧
      (∀ j, j ≠ R → res2.original.rows[j]? = t.rows[j]?) ∧
      (∀ p, p < t.cols.length → t.cols.getD p "" ≠ res.statusColName →
        (res2.original.rows.getD R []).getD p none = (t.rows.getD R []).getD p none) ∧
      (∀ p, p < t.cols.length → t.cols.getD p "" = res.statusColName →
        (res2.original.rows.getD R []).getD p none = some "Y") := by
  rcases load_ok_spec t res hload with
    ⟨keep, urlCol, commentCol, hkeep, hposs, hwcols, hu, hc, hiu, hic, hscn, hsp, horig, -⟩
  have hcont : t.cols.contains res.statusColName = true := List.elem_iff.mpr hsc
  have horig' : res.original = t := by
    rw [horig]
    unfold ensureCol
    rw [if_pos hcont]
  have hsc2 : res.statusColName =
      detectStatusCol ((wcolsOf t keep).map normalizeCol) (wcolsOf t keep) := by
    rw [hscn, hwcols]
  -- the row being marked
  have hr0 : t.rows[R]? = some (t.rows.getD R []) := by
    rw [List.getElem?_eq_getElem hR]
    rw [List.getD_eq_getElem?_getD, List.getElem?_eq_getElem hR]
    rfl
  set r0 := t.rows.getD R [] with hr0def
  have hr0mem : r0 ∈ t.rows := by
    have := List.getElem_mem hR
    rw [hr0def, List.getD_eq_getElem?_getD, List.getElem?_eq_getElem hR]
    exact this
  have hr0len : r0.length = t.cols.length := hrect r0 hr0mem
  -- characterize the update
  set f : List Cell → List Cell :=
    fun r => (colPositions t.cols res.statusColName).foldl
      (fun r' p => r'.set p (some "Y")) r with hfdef
  have htU : updateExcelFile t res.statusColName R "Y" =
      { t with rows := updateRows t.rows R f } := by
    simp only [updateExcelFile]
    rw [if_pos hcont, if_pos hR]
  have hcolsU : (updateExcelFile t res.statusColName R "Y").cols = t.cols := by
    rw [htU]
  have hrowsU : (updateExcelFile t res.statusColName R "Y").rows = updateRows t.rows R f := by
    rw [htU]
  have hstripU : strippedCols (updateExcelFile t res.statusColName R "Y") = strippedCols t := by
    unfold strippedCols
    rw [hcolsU]
  -- no empty-string cells after the update, so serialization round-trips
  have htUcells : ∀ r' ∈ (updateExcelFile t res.statusColName R "Y").rows,
      (some "" : Cell) ∉ r' := by
    rw [hrowsU]
    intro r' hr' hmem
    rcases mem_updateRows t.rows R f r' hr' with hm | ⟨r, hrm, hfr⟩
    · exact hcell r' hm hmem
    · rw [hfr] at hmem
      rcases mem_foldl_set (some "Y") (colPositions t.cols res.statusColName) r
          (some "") hmem with h1 | h1
      · exact hcell r hrm h1
      · exact absurd h1 (by decide)
  have hrt : roundTrip (updateExcelFile t res.statusColName R "Y") =
      updateExcelFile t res.statusColName R "Y" :=
    roundTrip_eq_self _ htUcells
  -- the status column is never an Unnamed column
  have hnotun : strStartsWith (pyStrip res.statusColName) "Unnamed" = false := by
    apply statusCol_strip_not_unnamed
    rcases detectStatusCol_spec (wcolsOf t keep) with ⟨-, h⟩ | ⟨-, h⟩
    · right; rw [hsc2]; exact h
    · left; rw [hsc2]; exact h
  -- the Unnamed drop is unchanged: the update touches only status positions
  have hagreeU : ∀ p, p < (strippedCols t).length →
      strStartsWith ((strippedCols t).getD p "") "Unnamed" = true →
      ∀ j, ((updateRows t.rows R f).getD j []).getD p none =
        (t.rows.getD j []).getD p none := by
    intro p hplen hstart j
    by_cases hj : j = R
    · rw [hj]
      rw [getD_of_getElem? _ _ _ (updateRows_getElem?_eq t.rows R f r0 hr0)]
      apply foldl_set_getD_not_mem
      intro hpP
      rcases (mem_colPositions _ _ _).mp hpP with ⟨hplen', hpname⟩
      have hstr : (strippedCols t).getD p "" = pyStrip res.statusColName := by
        unfold strippedCols
        rw [stripped_getD t.cols p hplen', hpname]
      rw [hstr, hnotun] at hstart
      cases hstart
    · simp only [List.getD_eq_getElem?_getD, updateRows_getElem?_ne t.rows R j f hj]
  have hkeepU : filterME
      (keepDecide (strippedCols (updateExcelFile t res.statusColName R "Y"))
        (updateExcelFile t res.statusColName R "Y").rows)
      (strippedCols (updateExcelFile t res.statusColName R "Y")) = Except.ok keep := by
    rw [hstripU, hrowsU]
    rw [filterME_keepDecide_congr (strippedCols t) t.rows (updateRows t.rows R f)
      (updateRows_length t.rows R f) hagreeU]
    exact hkeep
  have hwcolsU : wcolsOf (updateExcelFile t res.statusColName R "Y") keep = wcolsOf t keep := by
    unfold wcolsOf possOf
    rw [hstripU]
  have hpossU : possOf (updateExcelFile t res.statusColName R "Y") keep = possOf t keep := by
    unfold possOf
    rw [hstripU]
  have huU : detectColumn
      ((wcolsOf (updateExcelFile t res.statusColName R "Y") keep).map normalizeCol)
      (wcolsOf (updateExcelFile t res.statusColName R "Y") keep) Want.url = some urlCol := by
    rw [hwcolsU, ← hwcols]; exact hu
  have hcU : detectColumn
      ((wcolsOf (updateExcelFile t res.statusColName R "Y") keep).map normalizeCol)
      (wcolsOf (updateExcelFile t res.statusColName R "Y") keep) Want.comment =
      some commentCol := by
    rw [hwcolsU, ← hwcols]; exact hc
  have hiuU : uniquePos (wcolsOf (updateExcelFile t res.statusColName R "Y") keep) urlCol =
      Except.ok res.urlPos := by
    rw [hwcolsU, ← hwcols]; exact hiu
  have hicU : uniquePos (wcolsOf (updateExcelFile t res.statusColName R "Y") keep) commentCol =
      Except.ok res.commentPos := by
    rw [hwcolsU, ← hwcols]; exact hic
  have hspU : (if (wcolsOf (updateExcelFile t res.statusColName R "Y") keep).contains
        (detectStatusCol
          ((wcolsOf (updateExcelFile t res.statusColName R "Y") keep).map normalizeCol)
          (wcolsOf (updateExcelFile t res.statusColName R "Y") keep))
      then (uniquePos (wcolsOf (updateExcelFile t res.statusColName R "Y") keep)
        (detectStatusCol
          ((wcolsOf (updateExcelFile t res.statusColName R "Y") keep).map normalizeCol)
          (wcolsOf (updateExcelFile t res.statusColName R "Y") keep))).map some
      else Except.ok none) = Except.ok res.statusPos := by
    rw [hwcolsU, ← hwcols, ← hscn]
    exact hsp
  have hload2 := load_again (updateExcelFile t res.statusColName R "Y") keep urlCol commentCol
    res.urlPos res.commentPos res.statusPos hkeepU huU hcU hiuU hicU hspU
  -- the re-loaded retained copy is exactly the updated ledger
  have hdsc : detectStatusCol
      ((wcolsOf (updateExcelFile t res.statusColName R "Y") keep).map normalizeCol)
      (wcolsOf (updateExcelFile t res.statusColName R "Y") keep) = res.statusColName := by
    rw [hwcolsU, ← hwcols, ← hscn]
  have horig2 : ensureCol (updateExcelFile t res.statusColName R "Y")
      (detectStatusCol
        ((wcolsOf (updateExcelFile t res.statusColName R "Y") keep).map normalizeCol)
        (wcolsOf (updateExcelFile t res.statusColName R "Y") keep)) =
      updateExcelFile t res.statusColName R "Y" := by
    rw [hdsc]
    unfold ensureCol
    rw [if_pos (by rw [hcolsU]; exact hcont)]
  rw [horig']
  rw [hrt]
  refine ⟨_, hload2, ?_, ?_, ?_, ?_, ?_⟩
  · show (ensureCol (updateExcelFile t res.statusColName R "Y") _).cols = t.cols
    rw [horig2, hcolsU]
  · show (ensureCol (updateExcelFile t res.statusColName R "Y") _).rows.length = t.rows.length
    rw [horig2, hrowsU]
    exact updateRows_length t.rows R f
  · intro j hj
    show (ensureCol (updateExcelFile t res.statusColName R "Y") _).rows[j]? = t.rows[j]?
    rw [horig2, hrowsU]
    exact updateRows_getElem?_ne t.rows R j f hj
  · intro p hplen hne
    show ((ensureCol (updateExcelFile t res.statusColName R "Y") _).rows.getD R []).getD p none =
      r0.getD p none
    rw [horig2, hrowsU]
    rw [getD_of_getElem? _ _ _ (updateRows_getElem?_eq t.rows R f r0 hr0)]
    apply foldl_set_getD_not_mem
    intro hpP
    rcases (mem_colPositions _ _ _).mp hpP with ⟨-, hpname⟩
    exact hne hpname
  · intro p hplen heq
    show ((ensureCol (updateExcelFile t res.statusColName R "Y") _).rows.getD R []).getD p none =
      some "Y"
    rw [horig2, hrowsU]
    rw [getD_of_getElem? _ _ _ (updateRows_getElem?_eq t.rows R f r0 hr0)]
    exact foldl_set_getD_mem (some "Y") (colPositions t.cols res.statusColName) r0 p
      (colPositions_nodup t.cols res.statusColName)
      ((mem_colPositions t.cols res.statusColName p).mpr ⟨hplen, heq⟩)
      (by rw [hr0len]; exact hplen)

/-- C6 (amended): round-trip of the Row Ledger.  For every loaded dataset —
whose cells, coming from the tabular parser, are never empty strings and
whose rows are rectangular — such that the resolved status column name is
itself one of the dataset's column names or no status-like column was
detected at all (so the canonical default status column was auto-created) —
equivalently, unless a status-like column name trims to a name absent from
the dataset's columns — marking a present row `R` with the success marker
and serializing reproduces, on re-load, all original columns in their
original order (as the leading columns of the re-loaded retained copy)
with untouched values unchanged, and the ledger's status column at row `R`
equals the success marker `"Y"`. -/
theorem ledger_roundtrip (t : Table) (res : LoadResult) (R : Nat)
    (hload : loadSpreadsheet t = Except.ok res)
    (hsc : res.statusColName ∈ t.cols ∨ res.statusPos = none)
    (hcell : ∀ r ∈ t.rows, (some "" : Cell) ∉ r)
    (hrect : ∀ r ∈ t.rows, r.length = t.cols.length)
    (hR : R < t.rows.length) :
    ∃ res2, loadSpreadsheet (roundTrip (updateExcelFile res.original res.statusColName R "Y")) =
        Except.ok res2 ∧
      res2.original.cols = res.original.cols ∧
      res2.original.cols.take t.cols.length = t.cols ∧
      res2.original.rows.length = t.rows.length ∧
      (∀ j, j ≠ R → ∀ p, p < t.cols.length →
        (res2.original.rows.getD j []).getD p none = (t.rows.getD j []).getD p none) ∧
      (∀ p, p < t.cols.length → t.cols.getD p "" ≠ res.statusColName →
        (res2.original.rows.getD R []).getD p none = (t.rows.getD R []).getD p none) ∧
      (colPositions res2.original.cols res.statusColName ≠ [] ∧
        ∀ p ∈ colPositions res2.original.cols res.statusColName,
          (res2.original.rows.getD R []).getD p none = some "Y") := by
  by_cases hmem : res.statusColName ∈ t.cols
  · -- the status column is one of the dataset's columns
    rcases load_ok_spec t res hload with
      ⟨keep, urlCol, commentCol, -, -, -, -, -, -, -, -, -, horig, -⟩
    have horig' : res.original = t := by
      rw [horig]
      unfold ensureCol
      rw [if_pos (List.elem_iff.mpr hmem)]
    rcases roundtrip_with_status_col t res R hload hmem hcell hrect hR with
      ⟨res2, hload2, hcols2, hlen2, hrows2, huntouched2, hstatus2⟩
    refine ⟨res2, hload2, ?_, ?_, hlen2, ?_, huntouched2, ?_, ?_⟩
    · rw [hcols2, horig']
    · rw [hcols2, List.take_length]
    · intro j hj p _
      rw [List.getD_eq_getElem?_getD res2.original.rows,
        List.getD_eq_getElem?_getD t.rows, hrows2 j hj]
    · rw [hcols2]
      rcases List.mem_iff_getElem?.mp hmem with ⟨i, hi⟩
      have hilt : i < t.cols.length := (List.getElem?_eq_some.mp hi).1
      apply List.ne_nil_of_mem (a := i)
      apply (mem_colPositions t.cols res.statusColName i).mpr
      refine ⟨hilt, ?_⟩
      rw [List.getD_eq_getElem?_getD, hi]
      rfl
    · intro p hp
      rw [hcols2] at hp
      rcases (mem_colPositions t.cols res.statusColName p).mp hp with ⟨hplt, hpeq⟩
      exact hstatus2 p hplt hpeq
  · -- no status-like column resolved: the default column was auto-created
    have hsp0 : res.statusPos = none := by
      rcases hsc with h | h
      · exact absurd h hmem
      · exact h
    rcases load_ok_spec t res hload with
      ⟨keep, urlCol, commentCol, hkeep, hposs, hwcols, hu, hc, hiu, hic, hscn, hsp, horig, -⟩
    -- the working column set cannot carry the status column
    have hcontF : res.wcols.contains res.statusColName = false := by
      by_contra hne
      have hct : res.wcols.contains res.statusColName = true := by
        revert hne
        cases res.wcols.contains res.statusColName <;> simp
      rw [if_pos hct, hsp0] at hsp
      rcases hup : uniquePos res.wcols res.statusColName with e | p <;> rw [hup] at hsp
      · simp [Except.map] at hsp
      · simp [Except.map] at hsp
    have hnotinW : res.statusColName ∉ res.wcols := by
      intro h
      have hct : res.wcols.contains res.statusColName = true := List.elem_iff.mpr h
      rw [hct] at hcontF
      cases hcontF
    -- hence the canonical default name was chosen and no alias passed the filter
    have hdef : ((res.wcols.map normalizeCol).zip res.wcols).filter
        (fun p => statusCandidates.contains p.1) = [] ∧
        res.statusColName = "Commented (Y/N)" := by
      have h := detectStatusCol_spec res.wcols
      rw [← hscn] at h
      rcases h with h | ⟨hin, -⟩
      · exact h
      · exact absurd hin hnotinW
    obtain ⟨hfe, hscY⟩ := hdef
    -- the retained copy appends the default status column filled with ""
    have hcontT : ¬ (t.cols.contains res.statusColName = true) :=
      fun h => hmem (List.elem_iff.mp h)
    have horigT1 : res.original =
        { cols := t.cols ++ [res.statusColName],
          rows := t.rows.map (fun r => r ++ [some ""]) } := by
      rw [horig]
      unfold ensureCol
      rw [if_neg hcontT]
    have hstripSc : pyStrip res.statusColName = res.statusColName := by
      rw [hscY]
      decide
    have hkd : keepDecide (strippedCols t) t.rows res.statusColName = Except.ok true := by
      rw [hscY]
      unfold keepDecide
      rw [if_neg (by decide)]
    have hnotinS : res.statusColName ∉ strippedCols t := by
      intro hin
      apply hnotinW
      rw [hwcols]
      rcases List.mem_iff_getElem?.mp hin with ⟨i, hi⟩
      have hilt : i < (strippedCols t).length := (List.getElem?_eq_some.mp hi).1
      have hgetD : (strippedCols t).getD i "" = res.statusColName := by
        rw [List.getD_eq_getElem?_getD, hi]
        rfl
      have hip : i ∈ possOf t keep := by
        unfold possOf
        exact List.mem_flatMap.mpr ⟨res.statusColName,
          filterME_mem_of_true _ (strippedCols t) keep hkeep res.statusColName hin hkd,
          (mem_colPositions _ _ i).mpr ⟨hilt, hgetD⟩⟩
      unfold wcolsOf
      exact List.mem_map.mpr ⟨i, hip, hgetD⟩
    -- the row being marked
    have hr0 : t.rows[R]? = some (t.rows.getD R []) := by
      rw [List.getElem?_eq_getElem hR]
      rw [List.getD_eq_getElem?_getD, List.getElem?_eq_getElem hR]
      rfl
    set r0 := t.rows.getD R [] with hr0def
    have hr0mem : r0 ∈ t.rows := by
      have := List.getElem_mem hR
      rw [hr0def, List.getD_eq_getElem?_getD, List.getElem?_eq_getElem hR]
      exact this
    have hr0len : r0.length = t.cols.length := hrect r0 hr0mem
    -- the update writes the marker into the appended column
    set f2 : List Cell → List Cell := fun r => r.set t.cols.length (some "Y") with hf2def
    have hcontT1 : (t.cols ++ [res.statusColName]).contains res.statusColName = true :=
      List.elem_iff.mpr (List.mem_append_right _ (by simp))
    have ht2 : updateExcelFile
        { cols := t.cols ++ [res.statusColName],
          rows := t.rows.map (fun r => r ++ [some ""]) } res.statusColName R "Y" =
        { cols := t.cols ++ [res.statusColName],
          rows := updateRows (t.rows.map (fun r => r ++ [some ""])) R f2 } := by
      simp only [updateExcelFile]
      rw [if_pos hcontT1]
      rw [if_pos (show R < (t.rows.map (fun r => r ++ [some ""])).length by
        rw [List.length_map]
        exact hR)]
      rw [colPositions_append_self t.cols res.statusColName hmem]
      rfl
    set rows3 := (updateRows (t.rows.map (fun r => r ++ [some ""])) R f2).map
      (fun r => r.map roundTripCell) with hrows3def
    have ht3 : roundTrip (updateExcelFile
        { cols := t.cols ++ [res.statusColName],
          rows := t.rows.map (fun r => r ++ [some ""]) } res.statusColName R "Y") =
        { cols := t.cols ++ [res.statusColName], rows := rows3 } := by
      rw [ht2, hrows3def]
      rfl
    rw [horigT1, ht3]
    -- row-level description of the serialized-and-reread rows
    have hr1 : (t.rows.map (fun r => r ++ [some ""]))[R]? = some (r0 ++ [some ""]) := by
      rw [List.getElem?_map, hr0]
      rfl
    have hset0 : (r0 ++ [some ""]).set t.cols.length (some "Y") = r0 ++ [some "Y"] := by
      rw [← hr0len]
      exact set_append_len (some "") (some "Y") r0
    have hmapR : (r0 ++ [some "Y"]).map roundTripCell = r0 ++ [some "Y"] := by
      rw [List.map_append, roundTrip_row_eq_self r0 (hcell r0 hr0mem)]
      simp [roundTripCell]
    have hrow3R : rows3[R]? = some (r0 ++ [some "Y"]) := by
      rw [hrows3def, List.getElem?_map,
        updateRows_getElem?_eq (t.rows.map (fun r => r ++ [some ""])) R f2
          (r0 ++ [some ""]) hr1]
      show some (((r0 ++ [some ""]).set t.cols.length (some "Y")).map roundTripCell) = _
      rw [hset0, hmapR]
    have hrow3j : ∀ j, j ≠ R →
        rows3[j]? = (t.rows[j]?).map (fun r => (r ++ [some ""]).map roundTripCell) := by
      intro j hj
      rw [hrows3def, List.getElem?_map,
        updateRows_getElem?_ne (t.rows.map (fun r => r ++ [some ""])) R j f2 hj,
        List.getElem?_map, Option.map_map]
      rfl
    have hlen3 : rows3.length = t.rows.length := by
      rw [hrows3def, List.length_map, updateRows_length, List.length_map]
    have hagree3 : ∀ j p, p < t.cols.length →
        (rows3.getD j []).getD p none = (t.rows.getD j []).getD p none := by
      intro j p hp
      by_cases hj : j = R
      · rw [hj, getD_of_getElem? rows3 R (r0 ++ [some "Y"]) hrow3R, ← hr0def]
        exact getD_append_lt r0 (some "Y") none p (by rw [hr0len]; exact hp)
      · cases ht : t.rows[j]? with
        | none =>
          have h3 : rows3[j]? = none := by
            rw [hrow3j j hj, ht]
            rfl
          rw [List.getD_eq_getElem?_getD rows3, List.getD_eq_getElem?_getD t.rows, ht, h3]
        | some r =>
          have hrmem : r ∈ t.rows := by
            rcases List.getElem?_eq_some.mp ht with ⟨hlt, heq⟩
            exact heq ▸ List.getElem_mem hlt
          have h3 : rows3[j]? = some ((r ++ [some ""]).map roundTripCell) := by
            rw [hrow3j j hj, ht]
            rfl
          have hrr : (r ++ [some ""]).map roundTripCell = r ++ [none] := by
            rw [List.map_append, roundTrip_row_eq_self r (hcell r hrmem)]
            simp [roundTripCell]
          rw [getD_of_getElem? rows3 j _ h3, getD_of_getElem? t.rows j r ht, hrr]
          exact getD_append_lt r none none p (by rw [hrect r hrmem]; exact hp)
    -- re-loading the serialized ledger: the Unnamed drop keeps every column
    have hSlen : (strippedCols t).length = t.cols.length := by
      unfold strippedCols
      rw [List.length_map]
    have hstrip3 : strippedCols { cols := t.cols ++ [res.statusColName], rows := rows3 } =
        strippedCols t ++ [res.statusColName] := by
      show (t.cols ++ [res.statusColName]).map pyStrip =
        t.cols.map pyStrip ++ [res.statusColName]
      rw [List.map_append]
      show t.cols.map pyStrip ++ [pyStrip res.statusColName] = _
      rw [hstripSc]
    have hkeep3 : filterME (keepDecide (strippedCols t ++ [res.statusColName]) rows3)
        (strippedCols t ++ [res.statusColName]) =
        Except.ok (keep ++ [res.statusColName]) := by
      have hcg : ∀ c ∈ strippedCols t,
          keepDecide (strippedCols t ++ [res.statusColName]) rows3 c =
            keepDecide (strippedCols t) t.rows c := by
        intro c hcS
        exact keepDecide_append_ne (strippedCols t) t.rows rows3 res.statusColName c
          (fun h => hnotinS (h ▸ hcS)) hlen3
          (fun p hpP j => hagree3 j p (hSlen ▸ ((mem_colPositions _ _ _).mp hpP).1))
      apply filterME_append_singleton
      · rw [filterME_congr (keepDecide (strippedCols t ++ [res.statusColName]) rows3)
          (keepDecide (strippedCols t) t.rows) (strippedCols t) hcg]
        exact hkeep
      · rw [hscY]
        unfold keepDecide
        rw [if_neg (by decide)]
    -- positions and working columns of the re-load: the old ones plus the status column
    have hposs3 : possOf { cols := t.cols ++ [res.statusColName], rows := rows3 }
        (keep ++ [res.statusColName]) = possOf t keep ++ [(strippedCols t).length] := by
      unfold possOf
      rw [hstrip3, List.flatMap_append]
      congr 1
      · exact flatMap_congr_mem keep _ _ (fun c hck =>
          colPositions_append_ne (strippedCols t) res.statusColName c
            (fun h => hnotinS (h ▸ filterME_subset _ (strippedCols t) keep hkeep c hck)))
      · simp [colPositions_append_self (strippedCols t) res.statusColName hnotinS]
    have hwcols3 : wcolsOf { cols := t.cols ++ [res.statusColName], rows := rows3 }
        (keep ++ [res.statusColName]) = res.wcols ++ [res.statusColName] := by
      unfold wcolsOf
      rw [hposs3, hstrip3, List.map_append]
      congr 1
      · rw [hwcols]
        unfold wcolsOf
        exact List.map_congr_left (fun i hip =>
          getD_append_lt (strippedCols t) res.statusColName "" i (possOf_lt t keep i hip))
      · simp [getD_append_self]
    -- detections survive the appended column; the status column is now found
    have hu3 : detectColumn ((res.wcols ++ [res.statusColName]).map normalizeCol)
        (res.wcols ++ [res.statusColName]) Want.url = some urlCol :=
      detectColumn_append_of_some res.wcols res.statusColName Want.url urlCol hu
    have hc3 : detectColumn ((res.wcols ++ [res.statusColName]).map normalizeCol)
        (res.wcols ++ [res.statusColName]) Want.comment = some commentCol :=
      detectColumn_append_of_some res.wcols res.statusColName Want.comment commentCol hc
    have hUne : urlCol ≠ res.statusColName :=
      fun h => hnotinW (h ▸ detectColumn_mem (res.wcols.map normalizeCol) res.wcols
        Want.url urlCol hu)
    have hCne : commentCol ≠ res.statusColName :=
      fun h => hnotinW (h ▸ detectColumn_mem (res.wcols.map normalizeCol) res.wcols
        Want.comment commentCol hc)
    have hiu3 : uniquePos (res.wcols ++ [res.statusColName]) urlCol =
        Except.ok res.urlPos := by
      rw [uniquePos_append_ne res.wcols res.statusColName urlCol hUne]
      exact hiu
    have hic3 : uniquePos (res.wcols ++ [res.statusColName]) commentCol =
        Except.ok res.commentPos := by
      rw [uniquePos_append_ne res.wcols res.statusColName commentCol hCne]
      exact hic
    have hd3 : detectStatusCol ((res.wcols ++ [res.statusColName]).map normalizeCol)
        (res.wcols ++ [res.statusColName]) = res.statusColName :=
      detectStatusCol_append res.wcols res.statusColName hfe (by rw [hscY]; decide)
    have hcontW : (res.wcols ++ [res.statusColName]).contains res.statusColName = true :=
      List.elem_iff.mpr (List.mem_append_right _ (by simp))
    have hupW : uniquePos (res.wcols ++ [res.statusColName]) res.statusColName =
        Except.ok res.wcols.length := by
      unfold uniquePos
      rw [colPositions_append_self res.wcols res.statusColName hnotinW]
    -- assemble the second load
    have hkeep3a : filterME (keepDecide
        (strippedCols { cols := t.cols ++ [res.statusColName], rows := rows3 })
        ({ cols := t.cols ++ [res.statusColName], rows := rows3 } : Table).rows)
        (strippedCols { cols := t.cols ++ [res.statusColName], rows := rows3 }) =
        Except.ok (keep ++ [res.statusColName]) := by
      rw [hstrip3]
      exact hkeep3
    have hu3a : detectColumn ((wcolsOf { cols := t.cols ++ [res.statusColName], rows := rows3 }
          (keep ++ [res.statusColName])).map normalizeCol)
        (wcolsOf { cols := t.cols ++ [res.statusColName], rows := rows3 }
          (keep ++ [res.statusColName])) Want.url = some urlCol := by
      rw [hwcols3]
      exact hu3
    have hc3a : detectColumn ((wcolsOf { cols := t.cols ++ [res.statusColName], rows := rows3 }
          (keep ++ [res.statusColName])).map normalizeCol)
        (wcolsOf { cols := t.cols ++ [res.statusColName], rows := rows3 }
          (keep ++ [res.statusColName])) Want.comment = some commentCol := by
      rw [hwcols3]
      exact hc3
    have hiu3a : uniquePos (wcolsOf { cols := t.cols ++ [res.statusColName], rows := rows3 }
        (keep ++ [res.statusColName])) urlCol = Except.ok res.urlPos := by
      rw [hwcols3]
      exact hiu3
    have hic3a : uniquePos (wcolsOf { cols := t.cols ++ [res.statusColName], rows := rows3 }
        (keep ++ [res.statusColName])) commentCol = Except.ok res.commentPos := by
      rw [hwcols3]
      exact hic3
    have hsp3a : (if (wcolsOf { cols := t.cols ++ [res.statusColName], rows := rows3 }
          (keep ++ [res.statusColName])).contains
          (detectStatusCol ((wcolsOf { cols := t.cols ++ [res.statusColName], rows := rows3 }
              (keep ++ [res.statusColName])).map normalizeCol)
            (wcolsOf { cols := t.cols ++ [res.statusColName], rows := rows3 }
              (keep ++ [res.statusColName])))
        then (uniquePos (wcolsOf { cols := t.cols ++ [res.statusColName], rows := rows3 }
            (keep ++ [res.statusColName]))
          (detectStatusCol ((wcolsOf { cols := t.cols ++ [res.statusColName], rows := rows3 }
              (keep ++ [res.statusColName])).map normalizeCol)
            (wcolsOf { cols := t.cols ++ [res.statusColName], rows := rows3 }
              (keep ++ [res.statusColName])))).map some
        else Except.ok none) = Except.ok (some res.wcols.length) := by
      rw [hwcols3, hd3, if_pos hcontW, hupW]
      rfl
    have hload3 := load_again { cols := t.cols ++ [res.statusColName], rows := rows3 }
      (keep ++ [res.statusColName]) urlCol commentCol res.urlPos res.commentPos
      (some res.wcols.length) hkeep3a hu3a hc3a hiu3a hic3a hsp3a
    have hd3a : detectStatusCol
        ((wcolsOf { cols := t.cols ++ [res.statusColName], rows := rows3 }
          (keep ++ [res.statusColName])).map normalizeCol)
        (wcolsOf { cols := t.cols ++ [res.statusColName], rows := rows3 }
          (keep ++ [res.statusColName])) = res.statusColName := by
      rw [hwcols3]
      exact hd3
    have horig3 : ensureCol { cols := t.cols ++ [res.statusColName], rows := rows3 }
        (detectStatusCol
          ((wcolsOf { cols := t.cols ++ [res.statusColName], rows := rows3 }
            (keep ++ [res.statusColName])).map normalizeCol)
          (wcolsOf { cols := t.cols ++ [res.statusColName], rows := rows3 }
            (keep ++ [res.statusColName]))) =
        { cols := t.cols ++ [res.statusColName], rows := rows3 } := by
      rw [hd3a]
      unfold ensureCol
      rw [if_pos hcontT1]
    refine ⟨_, hload3, ?_, ?_, ?_, ?_, ?_, ?_, ?_⟩
    · show (ensureCol { cols := t.cols ++ [res.statusColName], rows := rows3 }
          (detectStatusCol _ _)).cols = _
      rw [horig3]
    · show (ensureCol { cols := t.cols ++ [res.statusColName], rows := rows3 }
          (detectStatusCol _ _)).cols.take t.cols.length = t.cols
      rw [horig3]
      exact List.take_left t.cols [res.statusColName]
    · show (ensureCol { cols := t.cols ++ [res.statusColName], rows := rows3 }
          (detectStatusCol _ _)).rows.length = t.rows.length
      rw [horig3]
      exact hlen3
    · intro j hj p hp
      show ((ensureCol { cols := t.cols ++ [res.statusColName], rows := rows3 }
          (detectStatusCol _ _)).rows.getD j []).getD p none = _
      rw [horig3]
      exact hagree3 j p hp
    · intro p hp hne
      show ((ensureCol { cols := t.cols ++ [res.statusColName], rows := rows3 }
          (detectStatusCol _ _)).rows.getD R []).getD p none = r0.getD p none
      rw [horig3]
      have h := hagree3 R p hp
      rw [← hr0def] at h
      exact h
    · show colPositions (ensureCol { cols := t.cols ++ [res.statusColName], rows := rows3 }
          (detectStatusCol _ _)).cols res.statusColName ≠ []
      rw [horig3]
      show colPositions (t.cols ++ [res.statusColName]) res.statusColName ≠ []
      rw [colPositions_append_self t.cols res.statusColName hmem]
      simp
    · intro p
      show p ∈ colPositions
          (ensureCol { cols := t.cols ++ [res.statusColName], rows := rows3 }
            (detectStatusCol _ _)).cols res.statusColName →
          ((ensureCol { cols := t.cols ++ [res.statusColName], rows := rows3 }
            (detectStatusCol _ _)).rows.getD R []).getD p none = some "Y"
      rw [horig3]
      show p ∈ colPositions (t.cols ++ [res.statusColName]) res.statusColName →
          (rows3.getD R []).getD p none = some "Y"
      rw [colPositions_append_self t.cols res.statusColName hmem]
      intro hp
      rw [List.mem_singleton.mp hp, getD_of_getElem? rows3 R (r0 ++ [some "Y"]) hrow3R,
        ← hr0len]
      exact getD_append_self r0 (some "Y") none

/-- A dataset whose status-like column name carries trailing whitespace:
`load` resolves the status column to the trimmed name `"status"`, which is
not a column of the retained full copy, so a fresh trimmed twin column is
created there. -/
def c6cexTable : Table := ⟨["url", "comment", "status "], [[some "u", some "c", none]]⟩

/-- The load result of `c6cexTable`: note the retained copy gained a fourth
column `"status"` next to the original `"status "`. -/
def c6cexRes : LoadResult :=
  ⟨[⟨0, [some "u", some "c", none], "u", "c"⟩],
    ⟨["url", "comment", "status ", "status"], [[some "u", some "c", none, some ""]]⟩,
    "status", ["url", "comment", "status"], [0, 1, 2], 0, 1, some 2⟩

/-- C6 counterexample: for the loaded dataset `c6cexTable` and row 0 of the
retained full copy, marking row 0 with the success marker and serializing
yields bytes whose re-load fails outright — after stripping, the ledger
has two columns named `"status"`, so the status-column lookup raises
(`df[status_col]` is a DataFrame and `.str` fails) — hence the original
columns and values are not reproduced at all, and the dataset's own status
column `"status "` never received the marker. -/
theorem ledger_roundtrip_counterexample :
    loadSpreadsheet c6cexTable = Except.ok c6cexRes ∧
    0 < c6cexRes.original.rows.length ∧
    loadSpreadsheet (roundTrip (updateExcelFile c6cexRes.original c6cexRes.statusColName 0 "Y")) =
      Except.error "ambiguous column label: status" :=
  ⟨rfl, by decide, rfl⟩

/-- A well-behaved dataset for the round-trip witness: trimmed column names
and a genuine status column. -/
def c6wTable : Table := ⟨["url", "comment", "status"], [[some "u", some "c", some "N"]]⟩

/-- Its load result. -/
def c6wRes : LoadResult :=
  ⟨[⟨0, [some "u", some "c", some "N"], "u", "c"⟩], c6wTable,
    "status", ["url", "comment", "status"], [0, 1, 2], 0, 1, some 2⟩

/-- Witness for the amended round-trip theorem at a concrete dataset. -/
theorem ledger_roundtrip_witness :
    (loadSpreadsheet c6wTable = Except.ok c6wRes) ∧
    (c6wRes.statusColName ∈ c6wTable.cols ∨ c6wRes.statusPos = none) ∧
    (∀ r ∈ c6wTable.rows, (some "" : Cell) ∉ r) ∧
    (∀ r ∈ c6wTable.rows, r.length = c6wTable.cols.length) ∧
    (0 < c6wTable.rows.length) ∧
    (∃ res2,
      loadSpreadsheet (roundTrip (updateExcelFile c6wRes.original c6wRes.statusColName 0 "Y")) =
        Except.ok res2 ∧
      res2.original.cols = c6wRes.original.cols ∧
      res2.original.cols.take c6wTable.cols.length = c6wTable.cols ∧
      res2.original.rows.length = c6wTable.rows.length ∧
      (∀ j, j ≠ 0 → ∀ p, p < c6wTable.cols.length →
        (res2.original.rows.getD j []).getD p none = (c6wTable.rows.getD j []).getD p none) ∧
      (∀ p, p < c6wTable.cols.length → c6wTable.cols.getD p "" ≠ c6wRes.statusColName →
        (res2.original.rows.getD 0 []).getD p none = (c6wTable.rows.getD 0 []).getD p none) ∧
      (colPositions res2.original.cols c6wRes.statusColName ≠ [] ∧
        ∀ p ∈ colPositions res2.original.cols c6wRes.statusColName,
          (res2.original.rows.getD 0 []).getD p none = some "Y")) :=
  ⟨rfl, Or.inl (by decide), by decide, by decide, by decide,
    ledger_roundtrip c6wTable c6wRes 0 rfl (Or.inl (by decide)) (by decide) (by decide)
      (by decide)⟩
